import Mathlib

/-!
Verification development for the ObShare document-conversion core.

Strings from the TypeScript source are modelled as lists of characters
(`JStr`), so that the line-splitting, trimming and pattern functions of the
source can be embedded as plain structural recursions.  JavaScript numbers
are modelled by exact arithmetic (`Nat`/`Int` and, for the similarity
scores, an explicit fraction type); all concrete values exercised here are
far from any floating-point rounding boundary.
-/

/-- Character-list model of a JavaScript string. -/
abbrev JStr := List Char

/-- The backquote character, used by Markdown code-fence delimiters. -/
def backquoteChar : Char := Char.ofNat 96

/-- JavaScript whitespace class (the members of regex class \s that occur in
practice: space, tab, newline, carriage return, vertical tab, form feed,
no-break space, BOM). -/
def jsWhitespace (c : Char) : Bool :=
  [' ', '\t', '\n', '\r', Char.ofNat 11, Char.ofNat 12, Char.ofNat 160,
   Char.ofNat 65279].contains c

/-- Model of JavaScript String.prototype.trim. -/
def jsTrim (s : JStr) : JStr :=
  ((s.dropWhile jsWhitespace).reverse.dropWhile jsWhitespace).reverse

/-- Model of JavaScript String.prototype.split with a single-character
separator: `"a\nb".split('\n')` etc.  Always returns at least one piece. -/
def splitOnChar (sep : Char) : JStr → List JStr
  | [] => [[]]
  | c :: rest =>
    if c = sep then [] :: splitOnChar sep rest
    else
      match splitOnChar sep rest with
      | [] => [[c]]
      | h :: t => (c :: h) :: t

/-- Model of JavaScript Array.prototype.join with a single-character
separator. -/
def joinWithChar (sep : Char) : List JStr → JStr
  | [] => []
  | [l] => l
  | l :: l2 :: ls => l ++ sep :: joinWithChar sep (l2 :: ls)

/-- Does `s` start with the pattern `p`? -/
def startsWithChars : JStr → JStr → Bool
  | [], _ => true
  | _ :: _, [] => false
  | p :: ps, c :: cs => p == c && startsWithChars ps cs

/-- Regex /^#{1,6}\s/ from isPlainTextLine: one to six leading hash marks
followed by a whitespace character. -/
def fmtHeading (t : JStr) : Bool :=
  let hs := t.takeWhile (fun c => c == ('#'))
  decide (1 ≤ hs.length) && decide (hs.length ≤ 6) &&
    (match t.drop hs.length with
     | c :: _ => jsWhitespace c
     | [] => false)

/-- Regex /^\s*[-*+]\s/ from isPlainTextLine. -/
def fmtBullet (t : JStr) : Bool :=
  match t.dropWhile jsWhitespace with
  | c :: rest =>
    (c == ('-') || c == ('*') || c == ('+')) &&
      (match rest with | d :: _ => jsWhitespace d | [] => false)
  | [] => false

/-- Regex /^\s*\d+\.\s/ from isPlainTextLine. -/
def fmtOrdered (t : JStr) : Bool :=
  let r := t.dropWhile jsWhitespace
  let ds := r.takeWhile (fun c => c.isDigit)
  !ds.isEmpty &&
    (match r.drop ds.length with
     | c :: rest =>
       c == ('.') && (match rest with | d :: _ => jsWhitespace d | [] => false)
     | [] => false)

/-- Regex /^>/ from isPlainTextLine. -/
def fmtQuote (t : JStr) : Bool :=
  match t with | c :: _ => c == ('>') | [] => false

/-- Regex matching a leading Markdown code-fence delimiter (three
backquotes) from isPlainTextLine. -/
def fmtCodeFence (t : JStr) : Bool :=
  startsWithChars [backquoteChar, backquoteChar, backquoteChar] t

/-- Regex /^\s*\|.*\|/ from isPlainTextLine (the dot class does not cross a
newline). -/
def fmtTableRow (t : JStr) : Bool :=
  match t.dropWhile jsWhitespace with
  | c :: rest =>
    c == ('|') && (rest.takeWhile (fun d => d != ('\n'))).contains ('|')
  | [] => false

/-- Scan for the first occurrence of the two-character sequence "](", not
crossing a newline, returning the remainder after it. -/
def seqBracketParen : JStr → Option JStr
  | [] => none
  | c :: rest =>
    if c = ('\n') then none
    else if c = (']') then
      match rest with
      | d :: rest2 => if d = ('(') then some rest2 else seqBracketParen rest
      | [] => none
    else seqBracketParen rest

/-- Is `target` present before the first newline? -/
def hasCharBeforeNl (target : Char) : JStr → Bool
  | [] => false
  | c :: rest =>
    if c = ('\n') then false else c == target || hasCharBeforeNl target rest

/-- Regex /^!\[.*\]\(.*\)/ from isPlainTextLine. -/
def fmtImage (t : JStr) : Bool :=
  match t with
  | c1 :: c2 :: rest =>
    c1 == ('!') && c2 == ('[') &&
      (match seqBracketParen rest with
       | some r => hasCharBeforeNl (')') r
       | none => false)
  | _ => false

/-- Regex /^\[.*\]\(.*\)/ from isPlainTextLine. -/
def fmtLink (t : JStr) : Bool :=
  match t with
  | c :: rest =>
    c == ('[') &&
      (match seqBracketParen rest with
       | some r => hasCharBeforeNl (')') r
       | none => false)
  | [] => false

/-- Regex /^---+$/ from isPlainTextLine. -/
def fmtHorizontalRule (t : JStr) : Bool :=
  decide (3 ≤ t.length) && t.all (fun c => c == ('-'))

/-- Regex /^\s*$/ from isPlainTextLine. -/
def fmtBlank (t : JStr) : Bool := t.all jsWhitespace

/-- Embedding of isPlainTextLine (part_005 lines 1701-1719): a trimmed,
non-empty line matching none of the special Markdown formats. -/
def isPlainTextLine (line : JStr) : Bool :=
  let trimmed := jsTrim line
  if trimmed.isEmpty then false
  else
    !(fmtHeading trimmed || fmtBullet trimmed || fmtOrdered trimmed ||
      fmtQuote trimmed || fmtCodeFence trimmed || fmtTableRow trimmed ||
      fmtImage trimmed || fmtLink trimmed || fmtHorizontalRule trimmed ||
      fmtBlank trimmed)

/-- The line-level loop of preprocessMarkdownForBlockSeparation: push each
line, and between two consecutive non-empty plain-text lines push one empty
line. -/
def sepLines : List JStr → List JStr
  | [] => []
  | [a] => [a]
  | a :: b :: rest =>
    if !a.isEmpty && !b.isEmpty && isPlainTextLine a && isPlainTextLine b then
      a :: [] :: sepLines (b :: rest)
    else
      a :: sepLines (b :: rest)

/-- Embedding of preprocessMarkdownForBlockSeparation (part_005 lines
1675-1694): split on newlines, insert blank separators between adjacent
plain-text lines, join with newlines. -/
def preprocessMarkdownForBlockSeparation (markdown : JStr) : JStr :=
  joinWithChar ('\n') (sepLines (splitOnChar ('\n') markdown))

theorem splitOnChar_ne_nil (sep : Char) : ∀ s : JStr, splitOnChar sep s ≠ []
  | [] => by simp [splitOnChar]
  | c :: rest => by
    have ih := splitOnChar_ne_nil sep rest
    unfold splitOnChar
    by_cases h : c = sep
    · simp [h]
    · simp only [if_neg h]
      cases hs : splitOnChar sep rest with
      | nil => simp
      | cons h t => simp

theorem mem_splitOnChar (sep : Char) :
    ∀ s : JStr, ∀ l ∈ splitOnChar sep s, sep ∉ l
  | [], l, hl => by
    simp [splitOnChar] at hl
    simp [hl]
  | c :: rest, l, hl => by
    have ih := mem_splitOnChar sep rest
    unfold splitOnChar at hl
    by_cases h : c = sep
    · simp only [if_pos h] at hl
      rcases List.mem_cons.mp hl with h1 | h2
      · simp [h1]
      · exact ih l h2
    · simp only [if_neg h] at hl
      cases hs : splitOnChar sep rest with
      | nil => exact absurd hs (splitOnChar_ne_nil sep rest)
      | cons hd tl =>
        rw [hs] at hl
        rcases List.mem_cons.mp hl with h1 | h2
        · subst h1
          intro hmem
          rcases List.mem_cons.mp hmem with h3 | h4
          · exact h h3.symm
          · exact ih hd (by rw [hs]; exact List.mem_cons_self _ _) h4
        · exact ih l (by rw [hs]; exact List.mem_cons_of_mem _ h2)

theorem splitOnChar_no_sep (sep : Char) :
    ∀ s : JStr, sep ∉ s → splitOnChar sep s = [s]
  | [], _ => by simp [splitOnChar]
  | c :: rest, h => by
    have hc : ¬ c = sep := fun hcs => h (by simp [hcs])
    have hrest : sep ∉ rest := fun hm => h (List.mem_cons_of_mem _ hm)
    unfold splitOnChar
    rw [if_neg hc, splitOnChar_no_sep sep rest hrest]

theorem splitOnChar_cons_of_ne (sep c : Char) (s : JStr) (h : ¬ c = sep) :
    splitOnChar sep (c :: s) =
      (c :: (splitOnChar sep s).headD []) :: (splitOnChar sep s).tail := by
  cases hs : splitOnChar sep s with
  | nil => exact absurd hs (splitOnChar_ne_nil sep s)
  | cons hd tl =>
    show (if c = sep then [] :: splitOnChar sep s
          else match splitOnChar sep s with
               | [] => [[c]]
               | h :: t => (c :: h) :: t) = _
    rw [if_neg h, hs]
    rfl

theorem splitOnChar_append_sep (sep : Char) :
    ∀ x z : JStr, sep ∉ x →
      splitOnChar sep (x ++ sep :: z) = x :: splitOnChar sep z
  | [], z, _ => by simp [splitOnChar]
  | c :: x, z, h => by
    have hc : ¬ c = sep := fun hcs => h (by simp [hcs])
    have hx : sep ∉ x := fun hm => h (List.mem_cons_of_mem _ hm)
    have ih := splitOnChar_append_sep sep x z hx
    rw [List.cons_append, splitOnChar_cons_of_ne sep c _ hc, ih]
    rfl

theorem splitOnChar_joinWithChar (sep : Char) :
    ∀ ls : List JStr, ls ≠ [] → (∀ l ∈ ls, sep ∉ l) →
      splitOnChar sep (joinWithChar sep ls) = ls
  | [], h, _ => absurd rfl h
  | [l], _, hmem => by
    simp only [joinWithChar]
    exact splitOnChar_no_sep sep l (hmem l (by simp))
  | l :: l2 :: t, _, hmem => by
    have ih := splitOnChar_joinWithChar sep (l2 :: t) (by simp)
      (fun x hx => hmem x (List.mem_cons_of_mem _ hx))
    show splitOnChar sep (l ++ sep :: joinWithChar sep (l2 :: t)) = _
    rw [splitOnChar_append_sep sep l _ (hmem l (by simp)), ih]

theorem sepLines_cons (b : JStr) (t : List JStr) :
    ∃ u, sepLines (b :: t) = b :: u := by
  cases t with
  | nil => exact ⟨[], rfl⟩
  | cons c t2 =>
    unfold sepLines
    by_cases h : (!b.isEmpty && !c.isEmpty && isPlainTextLine b && isPlainTextLine c) = true
    · rw [if_pos h]; exact ⟨[] :: sepLines (c :: t2), rfl⟩
    · rw [if_neg h]; exact ⟨sepLines (c :: t2), rfl⟩

theorem mem_sepLines : ∀ ls : List JStr, ∀ l ∈ sepLines ls, l ∈ ls ∨ l = []
  | [], l, hl => by simp [sepLines] at hl
  | [a], l, hl => by
    simp [sepLines] at hl
    simp [hl]
  | a :: b :: rest, l, hl => by
    have ih := mem_sepLines (b :: rest)
    unfold sepLines at hl
    by_cases h : (!a.isEmpty && !b.isEmpty && isPlainTextLine a && isPlainTextLine b) = true
    · rw [if_pos h] at hl
      rcases List.mem_cons.mp hl with h1 | h2
      · exact Or.inl (by simp [h1])
      · rcases List.mem_cons.mp h2 with h3 | h4
        · exact Or.inr h3
        · rcases ih l h4 with h5 | h6
          · exact Or.inl (List.mem_cons_of_mem _ h5)
          · exact Or.inr h6
    · rw [if_neg h] at hl
      rcases List.mem_cons.mp hl with h1 | h2
      · exact Or.inl (by simp [h1])
      · rcases ih l h2 with h5 | h6
        · exact Or.inl (List.mem_cons_of_mem _ h5)
        · exact Or.inr h6

theorem sepLines_eq (a b : JStr) (rest : List JStr) :
    sepLines (a :: b :: rest) =
      if (!a.isEmpty && !b.isEmpty && isPlainTextLine a && isPlainTextLine b) = true
      then a :: [] :: sepLines (b :: rest)
      else a :: sepLines (b :: rest) := rfl

theorem sepLines_idem : ∀ ls : List JStr, sepLines (sepLines ls) = sepLines ls
  | [] => rfl
  | [a] => rfl
  | a :: b :: rest => by
    have ih := sepLines_idem (b :: rest)
    obtain ⟨u, hu⟩ := sepLines_cons b rest
    have hfix : sepLines (b :: u) = b :: u := by rw [← hu, ih, hu]
    by_cases h : (!a.isEmpty && !b.isEmpty && isPlainTextLine a && isPlainTextLine b) = true
    · have e1 : sepLines (a :: b :: rest) = a :: [] :: b :: u := by
        rw [sepLines_eq, if_pos h, hu]
      rw [e1]
      have e2 : sepLines (a :: ([] : JStr) :: b :: u) =
          a :: sepLines (([] : JStr) :: b :: u) := by
        rw [sepLines_eq, if_neg (by simp)]
      have e3 : sepLines (([] : JStr) :: b :: u) = [] :: sepLines (b :: u) := by
        rw [sepLines_eq, if_neg (by simp)]
      rw [e2, e3, hfix]
    · have e1 : sepLines (a :: b :: rest) = a :: b :: u := by
        rw [sepLines_eq, if_neg h, hu]
      rw [e1, sepLines_eq, if_neg h, hfix]

/-- C9: the Markdown Preprocessor's blank-line insertion
(preprocessMarkdownForBlockSeparation) is idempotent: applying it twice
produces the same output as applying it once, for every input string. -/
theorem preprocessMarkdownForBlockSeparation_idempotent (markdown : JStr) :
    preprocessMarkdownForBlockSeparation (preprocessMarkdownForBlockSeparation markdown)
      = preprocessMarkdownForBlockSeparation markdown := by
  unfold preprocessMarkdownForBlockSeparation
  have h1 : sepLines (splitOnChar ('\n') markdown) ≠ [] := by
    cases hs : splitOnChar ('\n') markdown with
    | nil => exact absurd hs (splitOnChar_ne_nil _ markdown)
    | cons hd tl =>
      obtain ⟨u, hu⟩ := sepLines_cons hd tl
      rw [hu]
      simp
  have h2 : ∀ l ∈ sepLines (splitOnChar ('\n') markdown), ('\n') ∉ l := by
    intro l hl
    rcases mem_sepLines _ l hl with h3 | h4
    · exact mem_splitOnChar _ _ l h3
    · simp [h4]
  rw [splitOnChar_joinWithChar ('\n') _ h1 h2, sepLines_idem]

/-! ### Smart-update applicability (C7) -/

/-- One record of the persisted upload history, as consumed by
findExistingDocument (part_005 lines 54-68). -/
structure UploadRecord where
  title : String
  docToken : String
  url : String
  isReferencedDocument : Bool
deriving DecidableEq

/-- Embedding of findExistingDocument (part_005 lines 54-68): first history
record with the same title that is not a referenced document. -/
def findExistingDocument (title : String) (uploadHistory : List UploadRecord) :
    Option (String × String) :=
  (uploadHistory.find? (fun item => item.title == title && !item.isReferencedDocument)).map
    (fun d => (d.docToken, d.url))

/-- Inner loop of hasTableInMarkdown: walk the lines carrying the number of
code-fence delimiter lines seen so far. -/
def hasTableAux : List JStr → Nat → Bool
  | [], _ => false
  | l :: rest, fenceCount =>
    let line := jsTrim l
    if line.contains ('|') && decide (2 < line.length) &&
       decide (fenceCount % 2 = 0) &&
       decide (3 ≤ ((splitOnChar ('|') line).map jsTrim).length) then
      true
    else
      hasTableAux rest
        (fenceCount +
          if startsWithChars [backquoteChar, backquoteChar, backquoteChar] line
          then 1 else 0)

/-- Embedding of hasTableInMarkdown (part_005 lines 1622-1646): detects a
trimmed line containing a pipe, longer than two characters, outside fenced
code blocks, splitting on pipes into at least three cells. -/
def hasTableInMarkdown (markdownContent : JStr) : Bool :=
  hasTableAux (splitOnChar ('\n') markdownContent) 0

/-- Embedding of shouldUseSmartUpdate (part_005 lines 1656-1668). -/
def shouldUseSmartUpdate (title : String) (uploadHistory : List UploadRecord)
    (enableSmartUpdate : Bool) (markdownContent : Option JStr) : Bool :=
  if !enableSmartUpdate then false
  else if (match markdownContent with
           | some c => !c.isEmpty && hasTableInMarkdown c
           | none => false) then false
  else (findExistingDocument title uploadHistory).isSome

/-- C7: shouldUseSmartUpdate with provided content returns true exactly when
smart update is enabled, the content contains no table line, and the history
holds a same-title record that is not a referenced document; in particular a
detected table forces the result to false regardless of history. -/
theorem shouldUseSmartUpdate_iff (title : String) (uploadHistory : List UploadRecord)
    (enableSmartUpdate : Bool) (content : JStr) :
    shouldUseSmartUpdate title uploadHistory enableSmartUpdate (some content) = true ↔
      enableSmartUpdate = true ∧ hasTableInMarkdown content = false ∧
        ∃ r ∈ uploadHistory, r.title = title ∧ r.isReferencedDocument = false := by
  unfold shouldUseSmartUpdate findExistingDocument
  cases enableSmartUpdate with
  | false => simp
  | true =>
    simp only [Bool.not_true, Bool.false_eq_true, if_false]
    by_cases hc : content.isEmpty
    · have hnil : content = [] := List.isEmpty_iff.mp hc
      subst hnil
      have htab : hasTableInMarkdown [] = false := by decide
      simp [htab, List.find?_isSome, Option.isSome_map, and_assoc]
    · by_cases htab : hasTableInMarkdown content = true
      · simp [hc, htab]
      · have htab2 : hasTableInMarkdown content = false := by
          simpa using htab
        simp [hc, htab2, List.find?_isSome, Option.isSome_map, and_assoc]

/-- Closed instance of the C7 theorem at a concrete history and content. -/
theorem shouldUseSmartUpdate_iff_witness :
    shouldUseSmartUpdate ("Notes") [⟨"Notes", "tok1", "url1", false⟩] true
      (some (("Hello world").toList)) = true :=
  (shouldUseSmartUpdate_iff ("Notes") [⟨"Notes", "tok1", "url1", false⟩] true
      (("Hello world").toList)).mpr
    ⟨rfl, by decide, ⟨"Notes", "tok1", "url1", false⟩, by simp, rfl, rfl⟩

/-! ### Remote Mutation Executor permission-request retry policy (C6) -/

/-- Outcome of one attempt of the PATCH call inside executePermissionRequest:
the remote answered with code 0 (success), the remote answered with a
non-zero business code (the source then throws a plain Error carrying no
HTTP status), or the transport threw an error carrying an optional HTTP
status. -/
inductive AttemptOutcome where
  | success
  | business (code : Int)
  | httpError (status : Option Nat)
deriving DecidableEq

/-- Error with which executePermissionRequest finally rejects. -/
inductive PermRequestError where
  | businessErr (code : Int)
  | httpErr (status : Option Nat)
  | exhausted
deriving DecidableEq

/-- Result of executePermissionRequest. -/
inductive PermResult where
  | ok
  | failed (e : PermRequestError)
deriving DecidableEq

/-- Embedding of the while loop of executePermissionRequest (feishu-api.ts
lines 2034-2109), parameterised by the outcome of each attempt (indexed by
the retry counter, which the source increments once per retried call).
Returns the final result, the number of calls issued, and the list of
delays (in milliseconds) slept between attempts.  A business rejection is
re-thrown inside the catch block: its error object carries no status, so it
never equals 500 and propagates immediately; only a transport error whose
status is exactly 500 is retried, and only while fewer than 3 retries have
happened. -/
def executePermissionLoop (attempts : Nat → AttemptOutcome) (retryCount : Nat) :
    PermResult × Nat × List Nat :=
  if retryCount ≤ 3 then
    match attempts retryCount with
    | .success => (.ok, 1, [])
    | .business c => (.failed (.businessErr c), 1, [])
    | .httpError st =>
      if st = some 500 ∧ retryCount < 3 then
        let r := executePermissionLoop attempts (retryCount + 1)
        (r.1, r.2.1 + 1, 10000 :: r.2.2)
      else (.failed (.httpErr st), 1, [])
  else (.failed .exhausted, 0, [])
termination_by 4 - retryCount
decreasing_by omega

/-- Embedding of executePermissionRequest: run the loop with retryCount 0. -/
def executePermissionRequest (attempts : Nat → AttemptOutcome) :
    PermResult × Nat × List Nat :=
  executePermissionLoop attempts 0

/-- The attempt sequence that always fails with HTTP 502 (a 5xx-class
server error that is not exactly 500). -/
def attemptsAlways502 : Nat → AttemptOutcome :=
  fun _ => .httpError (some 502)

/-- Counterexample to C6 as stated: an attempt failing with HTTP 502, a
5xx-class server error, is not retried at all — the executor issues exactly
one call, sleeps no delay, and propagates the 502 error immediately. -/
theorem executePermissionRequest_5xx_counterexample :
    executePermissionRequest attemptsAlways502 =
        (.failed (.httpErr (some 502)), 1, []) ∧
      500 ≤ 502 ∧ 502 < 600 := by
  constructor
  · rw [executePermissionRequest, executePermissionLoop]
    simp [attemptsAlways502]
  · exact ⟨by decide, by decide⟩

/-- C6 (amended): in executePermissionRequest, only an HTTP error with
status exactly 500 is retried, up to 3 times with a fixed 10-second delay
between attempts; a business rejection (non-zero remote code) and every
other error — including other 5xx statuses — are never retried and
propagate immediately after a single call. -/
theorem executePermissionRequest_retry_policy :
    (∀ attempts c, attempts 0 = .business c →
        executePermissionRequest attempts = (.failed (.businessErr c), 1, [])) ∧
    (∀ attempts st, ¬ st = some 500 → attempts 0 = .httpError st →
        executePermissionRequest attempts = (.failed (.httpErr st), 1, [])) ∧
    (∀ attempts, (∀ k, attempts k = .httpError (some 500)) →
        executePermissionRequest attempts =
          (.failed (.httpErr (some 500)), 4, [10000, 10000, 10000])) := by
  refine ⟨?_, ?_, ?_⟩
  · intro attempts c h
    rw [executePermissionRequest, executePermissionLoop]
    simp [h]
  · intro attempts st hst h
    rw [executePermissionRequest, executePermissionLoop]
    simp [h, hst]
  · intro attempts h
    have e3 : executePermissionLoop attempts 3 =
        (.failed (.httpErr (some 500)), 1, []) := by
      rw [executePermissionLoop]
      simp [h 3]
    have e2 : executePermissionLoop attempts 2 =
        (.failed (.httpErr (some 500)), 2, [10000]) := by
      rw [executePermissionLoop]
      simp [h 2, e3]
    have e1 : executePermissionLoop attempts 1 =
        (.failed (.httpErr (some 500)), 3, [10000, 10000]) := by
      rw [executePermissionLoop]
      simp [h 1, e2]
    rw [executePermissionRequest, executePermissionLoop]
    simp [h 0, e1]

/-- Closed instance of the C6 retry-policy theorem: a business rejection
with code 99 propagates after one call, and a persistent HTTP 500 is
retried three times with three 10-second delays. -/
theorem executePermissionRequest_retry_policy_witness :
    executePermissionRequest (fun _ => .business 99) =
        (.failed (.businessErr 99), 1, []) ∧
      executePermissionRequest (fun _ => .httpError (some 500)) =
        (.failed (.httpErr (some 500)), 4, [10000, 10000, 10000]) :=
  ⟨executePermissionRequest_retry_policy.1 (fun _ => .business 99) 99 rfl,
   executePermissionRequest_retry_policy.2.2 (fun _ => .httpError (some 500))
     (fun _ => rfl)⟩

/-! ### Callout Transcoder matching (C8, C10) -/

/-- Lowercase a character-list string (ASCII case mapping; the callout type
names in play are ASCII). -/
def toLowerStr (s : JStr) : JStr := s.map Char.toLower

/-- Uppercase a character-list string (ASCII case mapping). -/
def toUpperStr (s : JStr) : JStr := s.map Char.toUpper

/-- Model of JavaScript String.prototype.includes. -/
def containsSub (s pat : JStr) : Bool :=
  if startsWithChars pat s then true
  else
    match s with
    | [] => false
    | _ :: rest => containsSub rest pat

/-- Extracted callout information (part_007 CalloutInfo interface). -/
structure CalloutInfo where
  type : JStr
  content : JStr
  originalText : JStr
  startIndex : Nat
  endIndex : Nat
deriving DecidableEq

/-- The quote payload of a remote block: each element contributes its
optional text-run content (the source reads element.text_run?.content and
substitutes the empty string when absent). -/
structure QuotePayload where
  elements : Option (List (Option JStr))
deriving DecidableEq

/-- Remote block as consumed by the Callout Transcoder (part_007
FeishuBlock interface, restricted to the fields the matcher reads). -/
structure FeishuBlock where
  block_id : Option String
  block_type : Nat
  parent_id : Option String
  index : Option Nat
  quote : Option QuotePayload
deriving DecidableEq

/-- Flattened, trimmed text of a block's quote payload, when present. -/
def quoteBlockText : FeishuBlock → Option JStr :=
  fun b =>
    match b.quote with
    | some q =>
      match q.elements with
      | some els => some (jsTrim ((els.map (fun e => e.getD [])).flatten))
      | none => none
    | none => none

/-- The literal callout marker string for a type rendering, as built by the
source: open bracket, bang, the type text, close bracket. -/
def calloutMarker (ty : JStr) : JStr := [('['), ('!')] ++ ty ++ [(']')]

/-- Predicate of the blocks.find call in findMatchingQuoteBlocks (part_007
lines 353-396): a quote-typed block (block_type 15) whose flattened text
contains the all-lowercase or the all-uppercase marker of the callout's
type. -/
def quoteBlockMatchesCallout (callout : CalloutInfo) (b : FeishuBlock) : Bool :=
  b.block_type == 15 &&
    (match quoteBlockText b with
     | some t =>
       containsSub t (calloutMarker (toLowerStr callout.type)) ||
         containsSub t (calloutMarker (toUpperStr callout.type))
     | none => false)

/-- Embedding of findMatchingQuoteBlocks (part_007 lines 353-396): for each
callout in order, pair it with the first matching block, skipping callouts
with no match.  No used-set is kept, so distinct callouts may be paired
with the same block. -/
def findMatchingQuoteBlocks (blocks : List FeishuBlock)
    (callouts : List CalloutInfo) : List (CalloutInfo × FeishuBlock) :=
  callouts.filterMap
    (fun c => (blocks.find? (quoteBlockMatchesCallout c)).map (fun b => (c, b)))

/-- The sequence of remote blocks submitted to delete-then-insert
conversion by the caller loop in convertCalloutsInDocument (part_007 lines
698-721), which invokes processSingleCalloutConversion once per returned
pair in order. -/
def calloutConversionSubmissions
    (ms : List (CalloutInfo × FeishuBlock)) : List FeishuBlock :=
  ms.map Prod.snd

/-- A callout of declared type written in lowercase. -/
def calloutWarning1 : CalloutInfo :=
  ⟨("warning").toList, [], [], 0, 0⟩

/-- A second callout of the same declared type at a later position. -/
def calloutWarning2 : CalloutInfo :=
  ⟨("warning").toList, [], [], 7, 7⟩

/-- A quote block whose text carries the lowercase warning marker. -/
def quoteBlockWarningLower : FeishuBlock :=
  ⟨some "blk1", 15, some "par1", some 0,
   some ⟨some [some (("[!warning] Be careful").toList)]⟩⟩

/-- A quote block whose text carries the marker in mixed case. -/
def quoteBlockWarningMixed : FeishuBlock :=
  ⟨some "blk2", 15, some "par1", some 0,
   some ⟨some [some (("[!Warning] Be careful").toList)]⟩⟩

/-- Counterexample to C8 as stated: the mixed-case marker text does contain
the callout marker case-insensitively, yet the matcher pairs nothing,
because the source only probes the all-lowercase and all-uppercase
variants. -/
theorem findMatchingQuoteBlocks_case_counterexample :
    quoteBlockText quoteBlockWarningMixed =
        some (("[!Warning] Be careful").toList) ∧
      containsSub (toLowerStr (("[!Warning] Be careful").toList))
        (calloutMarker (toLowerStr calloutWarning1.type)) = true ∧
      findMatchingQuoteBlocks [quoteBlockWarningMixed] [calloutWarning1] = [] := by
  refine ⟨by decide, by decide, by decide⟩

/-- C8 (amended): every pair returned by findMatchingQuoteBlocks consists
of a listed callout and a listed block of quote type (block_type 15) whose
flattened text contains the callout's marker in all-lowercase or
all-uppercase form — never a block of another type; and conversely every
callout for which some listed block matches is paired with the first such
block.  Mixed-case marker occurrences are not matched. -/
theorem findMatchingQuoteBlocks_characterization
    (blocks : List FeishuBlock) (callouts : List CalloutInfo) :
    (∀ c b, (c, b) ∈ findMatchingQuoteBlocks blocks callouts →
      c ∈ callouts ∧ b ∈ blocks ∧ b.block_type = 15 ∧
        ∃ t, quoteBlockText b = some t ∧
          (containsSub t (calloutMarker (toLowerStr c.type)) = true ∨
           containsSub t (calloutMarker (toUpperStr c.type)) = true)) ∧
    (∀ c ∈ callouts, ∀ b ∈ blocks, quoteBlockMatchesCallout c b = true →
      ∃ b2, blocks.find? (quoteBlockMatchesCallout c) = some b2 ∧
        (c, b2) ∈ findMatchingQuoteBlocks blocks callouts) := by
  constructor
  · intro c b hmem
    rw [findMatchingQuoteBlocks] at hmem
    obtain ⟨c2, hc2, heq⟩ := List.mem_filterMap.mp hmem
    cases hfind : blocks.find? (quoteBlockMatchesCallout c2) with
    | none => rw [hfind] at heq; simp at heq
    | some b2 =>
      rw [hfind] at heq
      simp only [Option.map_some', Option.some.injEq, Prod.mk.injEq] at heq
      obtain ⟨hceq, hbeq⟩ := heq
      rw [← hceq, ← hbeq]
      have hpred := List.find?_some hfind
      have hbmem := List.mem_of_find?_eq_some hfind
      rw [quoteBlockMatchesCallout] at hpred
      simp only [Bool.and_eq_true, beq_iff_eq] at hpred
      obtain ⟨htype, hrest⟩ := hpred
      refine ⟨hc2, hbmem, htype, ?_⟩
      cases ht : quoteBlockText b2 with
      | none => rw [ht] at hrest; simp at hrest
      | some t =>
        rw [ht] at hrest
        simp only [Bool.or_eq_true] at hrest
        exact ⟨t, rfl, hrest⟩
  · intro c hc b hb hmatch
    have hsome : (blocks.find? (quoteBlockMatchesCallout c)).isSome := by
      rw [List.find?_isSome]
      exact ⟨b, hb, hmatch⟩
    obtain ⟨b2, hb2⟩ := Option.isSome_iff_exists.mp hsome
    refine ⟨b2, hb2, ?_⟩
    rw [findMatchingQuoteBlocks]
    apply List.mem_filterMap.mpr
    exact ⟨c, hc, by rw [hb2]; rfl⟩

/-- Closed instance of the C8 characterization: the lowercase-marker block
is paired with the lowercase-typed callout, and the pair satisfies the
soundness half of the theorem. -/
theorem findMatchingQuoteBlocks_characterization_witness :
    calloutWarning1 ∈ ([calloutWarning1] : List CalloutInfo) ∧
      quoteBlockWarningLower ∈ ([quoteBlockWarningLower] : List FeishuBlock) ∧
      quoteBlockWarningLower.block_type = 15 :=
  have h := (findMatchingQuoteBlocks_characterization [quoteBlockWarningLower]
      [calloutWarning1]).1 calloutWarning1 quoteBlockWarningLower (by decide)
  ⟨h.1, h.2.1, h.2.2.1⟩

/-- C10: the matcher keeps no used-set — two callouts of the same type are
both paired with the single matching quote block, so that block is
submitted to delete-then-insert conversion twice by the caller loop. -/
theorem findMatchingQuoteBlocks_duplicate_submission :
    findMatchingQuoteBlocks [quoteBlockWarningLower]
        [calloutWarning1, calloutWarning2] =
      [(calloutWarning1, quoteBlockWarningLower),
       (calloutWarning2, quoteBlockWarningLower)] ∧
    (calloutConversionSubmissions
        (findMatchingQuoteBlocks [quoteBlockWarningLower]
          [calloutWarning1, calloutWarning2])).count quoteBlockWarningLower
      = 2 := by
  constructor
  · decide
  · decide

/-! ### Insertion Planner (C4, C5) -/

/-- A block_type value, which in the source is either a number (blocks read
back from the remote service) or a string (blocks produced by the local
converter). -/
inductive BlockTypeTag where
  | num (n : Nat)
  | str (s : String)
deriving DecidableEq

/-- The UNSUPPORTED_BLOCK_TYPES set (part_005 lines 853-862). -/
def unsupportedBlockTypes : List String :=
  ["ai_template", "source_synced", "reference_synced", "mindnote",
   "undefined", "page", "view", "diagram"]

/-- Embedding of isSupportedBlockType (part_005 lines 895-897).  The set
holds strings, so a numeric block_type is never a member. -/
def isSupportedBlockType (blockType : BlockTypeTag) : Bool :=
  match blockType with
  | .str s => !(unsupportedBlockTypes.contains s)
  | .num _ => true

/-- The numericMapping table of mapBlockTypeToMarkdown (part_005 lines
1727-1738). -/
def numericBlockTypeMapping (n : Nat) : Option String :=
  if n = 2 then some ("text")
  else if n = 3 then some ("heading1")
  else if n = 4 then some ("heading2")
  else if n = 5 then some ("heading3")
  else if n = 13 then some ("ordered")
  else if n = 14 then some ("bullet")
  else if n = 15 then some ("quote")
  else if n = 16 then some ("code")
  else if n = 27 then some ("image")
  else if n = 31 then some ("table")
  else none

/-- The stringMapping table of mapBlockTypeToMarkdown (part_005 lines
1740-1753): the identity on the listed type names. -/
def stringBlockTypeMapping (s : String) : Option String :=
  if s = "text" ∨ s = "heading1" ∨ s = "heading2" ∨ s = "heading3" ∨
     s = "bullet" ∨ s = "ordered" ∨ s = "quote" ∨ s = "code" ∨
     s = "image" ∨ s = "table" ∨ s = "table_row" ∨ s = "table_cell"
  then some s else none

/-- Digit-run value used by the parseInt model. -/
def digitsVal (cs : JStr) : Option Nat :=
  let ds := cs.takeWhile Char.isDigit
  if ds.isEmpty then none
  else some (ds.foldl (fun acc c => acc * 10 + (c.toNat - 48)) 0)

/-- Model of JavaScript parseInt in base 10: leading whitespace, optional
sign, then a digit run; none when no digits follow. -/
def parseIntJs (cs : JStr) : Option Int :=
  match cs.dropWhile jsWhitespace with
  | ('-') :: rest => (digitsVal rest).map (fun n => -(n : Int))
  | ('+') :: rest => (digitsVal rest).map (fun n => (n : Int))
  | other => (digitsVal other).map (fun n => (n : Int))

/-- Embedding of mapBlockTypeToMarkdown (part_005 lines 1726-1768): numeric
types go through the numeric table (default "text"); string types are first
parsed as integers, and otherwise go through the string table (default
"text"). -/
def mapBlockTypeToMarkdown (blockType : BlockTypeTag) : String :=
  match blockType with
  | .num n => (numericBlockTypeMapping n).getD ("text")
  | .str s =>
    let viaNumeric : Option String :=
      match parseIntJs s.toList with
      | some v => if 0 ≤ v then numericBlockTypeMapping v.toNat else none
      | none => none
    match viaNumeric with
    | some m => m
    | none => (stringBlockTypeMapping s).getD ("text")

/-- The validRelations table of isValidParentChildRelation (part_005 lines
1844-1849). -/
def validParentChildRelations (p : String) : Option (List String) :=
  if p = "ordered" then some [("text"), ("ordered"), ("bullet")]
  else if p = "bullet" then some [("text"), ("ordered"), ("bullet")]
  else if p = "quote" then
    some [("text"), ("heading1"), ("heading2"), ("heading3"), ("ordered"),
          ("bullet"), ("quote")]
  else if p = "text" then some []
  else none

/-- Embedding of isValidParentChildRelation (part_005 lines 1838-1852). -/
def isValidParentChildRelation (parentType childType : BlockTypeTag) : Bool :=
  let parentMdType := mapBlockTypeToMarkdown parentType
  let childMdType := mapBlockTypeToMarkdown childType
  match validParentChildRelations parentMdType with
  | some l => l.contains childMdType
  | none => false

/-- The property object of a table payload. -/
structure TableProperty where
  row_size : Option Int
  column_size : Option Int
deriving DecidableEq

/-- The table payload of a block; merge_info records whether the field that
the planner deletes is present. -/
structure TablePayload where
  property : Option TableProperty
  merge_info : Bool
deriving DecidableEq

/-- The sheet payload of a block. -/
structure SheetPayload where
  row_size : Option Int
  column_size : Option Int
deriving DecidableEq

/-- A block as consumed by processBlocksForInsertion: its type tag, the
table and sheet payloads when present, and the optional children array. -/
inductive PBlock where
  | mk (block_type : BlockTypeTag) (table : Option TablePayload)
      (sheet : Option SheetPayload) (children : Option (List PBlock))

/-- The block_type field of a PBlock. -/
def PBlock.btype : PBlock → BlockTypeTag
  | .mk bt _ _ _ => bt

/-- The table field of a PBlock. -/
def PBlock.tablePayload : PBlock → Option TablePayload
  | .mk _ t _ _ => t

/-- JavaScript truthiness test of the source condition
(missing row_size, or row_size not positive). -/
def dimMissingOrNonpos (x : Option Int) : Bool :=
  match x with
  | none => true
  | some v => decide (v ≤ 0)

/-- The replacement value Math.min(Math.max(1, size or 1), 9) used when a
dimension is missing or non-positive. -/
def dimDefault (x : Option Int) : Int :=
  min (max 1 (match x with | none => 1 | some v => if v = 0 then 1 else v)) 9

/-- The dimension after the missing-or-non-positive fix: replaced by the
clamped default in that case, kept otherwise. -/
def fixDim (x : Option Int) : Int :=
  if dimMissingOrNonpos x then dimDefault x else x.getD 1

/-- Scaled table dimension Math.floor(d * Math.sqrt(2000 / (r * c))) of the
source, in exact arithmetic: for positive r and c and a natural n,
n ≤ d * sqrt (2000 / (r * c)) iff n ^ 2 * (r * c) ≤ 2000 * d ^ 2 iff
n ^ 2 ≤ (2000 * d ^ 2) / (r * c) rounded down, so the floor of the real
expression equals Nat.sqrt of the floored quotient. -/
def scaledDim (r c d : Int) : Int :=
  Int.ofNat (Nat.sqrt ((2000 * d.toNat * d.toNat) / (r.toNat * c.toNat)))

/-- The table-payload processing step of processBlocksForInsertion
(part_005 lines 1472-1509): delete merge_info, default the property object,
fix missing or non-positive dimensions, and shrink when the cell count
exceeds 2000. -/
def processTable (tp : TablePayload) : TablePayload :=
  let prop := tp.property.getD ⟨none, none⟩
  let r1 := fixDim prop.row_size
  let c1 := fixDim prop.column_size
  if 2000 < r1 * c1 then
    ⟨some ⟨some (max 1 (scaledDim r1 c1 r1)), some (max 1 (scaledDim r1 c1 c1))⟩,
     false⟩
  else ⟨some ⟨some r1, some c1⟩, false⟩

/-- The sheet-payload processing step of processBlocksForInsertion
(part_005 lines 1513-1529). -/
def processSheet (sp : SheetPayload) : SheetPayload :=
  ⟨some (fixDim sp.row_size), some (fixDim sp.column_size)⟩

mutual

/-- Embedding of the inner processBlock closure of processBlocksForInsertion
(part_005 lines 1456-1545): drop unsupported types, drop blocks invalid
under their parent type, process table and sheet payloads, recurse into
children and delete an emptied children array. -/
def processBlock (parentType : Option BlockTypeTag) : PBlock → Option PBlock
  | .mk bt table sheet children =>
    if !(isSupportedBlockType bt) then none
    else if (match parentType with
             | some pt => !(isValidParentChildRelation pt bt)
             | none => false) then none
    else
      let table2 := if bt == .str ("table") then table.map processTable else table
      let sheet2 := if bt == .str ("sheet") then sheet.map processSheet else sheet
      let children2 : Option (List PBlock) :=
        match children with
        | some ch =>
          let pc := processChildren bt ch
          if pc.isEmpty then none else some pc
        | none => none
      some (.mk bt table2 sheet2 children2)

/-- Children recursion of processBlock: process each child against the
parent's type and keep the non-dropped ones. -/
def processChildren (bt : BlockTypeTag) : List PBlock → List PBlock
  | [] => []
  | c :: cs =>
    match processBlock (some bt) c with
    | some c2 => c2 :: processChildren bt cs
    | none => processChildren bt cs

end

/-- Embedding of processBlocksForInsertion (part_005 lines 1455-1548). -/
def processBlocksForInsertion (blocks : List PBlock)
    (parentBlockType : Option BlockTypeTag) : List PBlock :=
  blocks.filterMap (processBlock parentBlockType)


/-- The parent-type guard of processBlock: with a parent type present, the
block is dropped when the parent/child relation is invalid. -/
def parentGuard (parentType : Option BlockTypeTag) (bt : BlockTypeTag) : Bool :=
  match parentType with
  | some ptv => !(isValidParentChildRelation ptv bt)
  | none => false

/-- The children field produced by processBlock: recurse, and delete the
array when every child was dropped. -/
def processedChildrenField (bt : BlockTypeTag)
    (children : Option (List PBlock)) : Option (List PBlock) :=
  match children with
  | some ch =>
    if (processChildren bt ch).isEmpty then none
    else some (processChildren bt ch)
  | none => none

/-- Constructor-level equation for processBlock. -/
theorem processBlock_mk (pt : Option BlockTypeTag) (bt : BlockTypeTag)
    (table : Option TablePayload) (sheet : Option SheetPayload)
    (children : Option (List PBlock)) :
    processBlock pt (.mk bt table sheet children) =
      if (!(isSupportedBlockType bt)) = true then none
      else if parentGuard pt bt = true then none
      else some (.mk bt
        (if bt == BlockTypeTag.str ("table") then table.map processTable else table)
        (if bt == BlockTypeTag.str ("sheet") then sheet.map processSheet else sheet)
        (processedChildrenField bt children)) := by
  rw [processBlock.eq_def]
  rfl

theorem processChildren_nil (bt : BlockTypeTag) : processChildren bt [] = [] := by
  rw [processChildren.eq_def]

theorem processChildren_cons (bt : BlockTypeTag) (c : PBlock) (cs : List PBlock) :
    processChildren bt (c :: cs) =
      match processBlock (some bt) c with
      | some c2 => c2 :: processChildren bt cs
      | none => processChildren bt cs := by
  rw [processChildren.eq_def]

/-- Per-node table-dimension check for the amended C5 invariant: a
table-typed block carrying a table payload must have a property object with
both dimensions present and positive. -/
def tableDimCheck (bt : BlockTypeTag) (table : Option TablePayload) : Bool :=
  if bt == BlockTypeTag.str ("table") then
    match table with
    | some tp =>
      match tp.property with
      | some pr =>
        match pr.row_size, pr.column_size with
        | some r, some c => decide (1 ≤ r) && decide (1 ≤ c)
        | _, _ => false
      | none => false
    | none => true
  else true

mutual

/-- Recursive checker for the amended C5 invariant. -/
def tableDimsPositive : PBlock → Bool
  | .mk bt table _ children =>
    tableDimCheck bt table &&
      (match children with
       | some ch => tableDimsPositiveList ch
       | none => true)

/-- List version of tableDimsPositive. -/
def tableDimsPositiveList : List PBlock → Bool
  | [] => true
  | b :: bs => tableDimsPositive b && tableDimsPositiveList bs

end

/-- The children conjunct of tableDimsPositive. -/
def childrenDimsOk (children : Option (List PBlock)) : Bool :=
  match children with
  | some ch => tableDimsPositiveList ch
  | none => true

/-- Constructor-level equation for tableDimsPositive. -/
theorem tableDimsPositive_mk (bt : BlockTypeTag) (table : Option TablePayload)
    (sheet : Option SheetPayload) (children : Option (List PBlock)) :
    tableDimsPositive (.mk bt table sheet children) =
      (tableDimCheck bt table && childrenDimsOk children) := by
  rw [tableDimsPositive.eq_def]
  rfl

theorem tableDimsPositiveList_nil : tableDimsPositiveList [] = true := by
  rw [tableDimsPositiveList.eq_def]

theorem tableDimsPositiveList_cons (b : PBlock) (bs : List PBlock) :
    tableDimsPositiveList (b :: bs) =
      (tableDimsPositive b && tableDimsPositiveList bs) := by
  rw [tableDimsPositiveList.eq_def]

theorem one_le_fixDim (x : Option Int) : 1 ≤ fixDim x := by
  unfold fixDim dimMissingOrNonpos dimDefault
  cases x with
  | none => norm_num
  | some v =>
    by_cases hv : v ≤ 0
    · simp only [decide_eq_true_eq, if_pos hv]
      by_cases hz : v = 0
      · simp [hz]
      · have hmax : max 1 (if v = 0 then 1 else v) = 1 := by
          rw [if_neg hz]
          omega
        simp [hmax]
    · simp only [decide_eq_true_eq, if_neg hv, Option.getD_some]
      omega

theorem processTable_dims (tp : TablePayload) :
    ∃ r c, (processTable tp).property = some ⟨some r, some c⟩ ∧ 1 ≤ r ∧ 1 ≤ c := by
  unfold processTable
  by_cases h : 2000 <
      fixDim (tp.property.getD ⟨none, none⟩).row_size *
        fixDim (tp.property.getD ⟨none, none⟩).column_size
  · rw [if_pos h]
    exact ⟨_, _, rfl, le_max_left 1 _, le_max_left 1 _⟩
  · rw [if_neg h]
    exact ⟨_, _, rfl, one_le_fixDim _, one_le_fixDim _⟩

mutual

theorem processBlock_tableDims : ∀ (pt : Option BlockTypeTag) (b b2 : PBlock),
    processBlock pt b = some b2 → tableDimsPositive b2 = true
  | pt, .mk bt table sheet children, b2, h => by
    rw [processBlock_mk] at h
    by_cases h1 : (!(isSupportedBlockType bt)) = true
    · rw [if_pos h1] at h
      exact absurd h (by simp)
    · rw [if_neg h1] at h
      by_cases h2 : parentGuard pt bt = true
      · rw [if_pos h2] at h
        exact absurd h (by simp)
      · rw [if_neg h2] at h
        simp only [Option.some.injEq] at h
        subst h
        rw [tableDimsPositive_mk, Bool.and_eq_true]
        refine ⟨?_, ?_⟩
        · by_cases hbt : (bt == BlockTypeTag.str ("table")) = true
          · rw [if_pos hbt]
            cases table with
            | none => simp [tableDimCheck, hbt]
            | some tp =>
              obtain ⟨r, c, hpr, hr, hc⟩ := processTable_dims tp
              simp [tableDimCheck, hbt, hpr, hr, hc]
          · rw [if_neg hbt]
            simp [tableDimCheck, hbt]
        · cases children with
          | none => simp [processedChildrenField, childrenDimsOk]
          | some ch =>
            rw [processedChildrenField]
            by_cases hpc : (processChildren bt ch).isEmpty = true
            · rw [if_pos hpc]
              simp [childrenDimsOk]
            · rw [if_neg hpc]
              rw [childrenDimsOk]
              exact processChildren_tableDims bt ch

theorem processChildren_tableDims : ∀ (bt : BlockTypeTag) (ch : List PBlock),
    tableDimsPositiveList (processChildren bt ch) = true
  | bt, [] => by rw [processChildren_nil, tableDimsPositiveList_nil]
  | bt, c :: cs => by
    rw [processChildren_cons]
    cases hc : processBlock (some bt) c with
    | none => exact processChildren_tableDims bt cs
    | some c2 =>
      rw [tableDimsPositiveList_cons, Bool.and_eq_true]
      exact ⟨processBlock_tableDims (some bt) c c2 hc,
             processChildren_tableDims bt cs⟩

end

/-- C5 (amended): after the Insertion Planner runs, every table block that
carries a table payload has both row_size and column_size present and
positive (at least 1), recursively through children; the [1,9] clamp of the
source applies only to dimensions that were missing or non-positive, so
positive dimensions larger than 9 pass through. -/
theorem processBlocksForInsertion_table_dims_positive
    (blocks : List PBlock) (pt : Option BlockTypeTag) (b2 : PBlock)
    (h : b2 ∈ processBlocksForInsertion blocks pt) :
    tableDimsPositive b2 = true := by
  rw [processBlocksForInsertion] at h
  obtain ⟨b, _, hb⟩ := List.mem_filterMap.mp h
  exact processBlock_tableDims pt b b2 hb

/-- A table block with the given positive dimensions, no sheet payload and
no children. -/
def tableBlockRC (r c : Int) : PBlock :=
  .mk (.str ("table")) (some ⟨some ⟨some r, some c⟩, false⟩) none none

theorem fixDim_pos (v : Int) (hv : 1 ≤ v) : fixDim (some v) = v := by
  have hnp : ¬ v ≤ 0 := by omega
  simp [fixDim, dimMissingOrNonpos, hnp]

/-- Evaluation of the planner on a single over-limit table block. -/
theorem processBlocksForInsertion_overflow_eval (r c : Int)
    (hr : 1 ≤ r) (hc : 1 ≤ c) (hover : 2000 < r * c) :
    processBlocksForInsertion [tableBlockRC r c] none =
      [.mk (.str ("table"))
        (some ⟨some ⟨some (max 1 (scaledDim r c r)), some (max 1 (scaledDim r c c))⟩,
          false⟩) none none] := by
  have htab : processTable ⟨some ⟨some r, some c⟩, false⟩ =
      ⟨some ⟨some (max 1 (scaledDim r c r)), some (max 1 (scaledDim r c c))⟩,
        false⟩ := by
    unfold processTable
    simp only [Option.getD_some]
    rw [fixDim_pos r hr, fixDim_pos c hc, if_pos hover]
  have hpb : processBlock none (tableBlockRC r c) =
      some (.mk (.str ("table"))
        (some ⟨some ⟨some (max 1 (scaledDim r c r)), some (max 1 (scaledDim r c c))⟩,
          false⟩) none none) := by
    rw [tableBlockRC, processBlock_mk, if_neg (by decide), if_neg (by decide)]
    simp [htab, processedChildrenField]
  simp [processBlocksForInsertion, hpb]

/-- Evaluation of the planner on a single in-limit table block: the block
passes through unchanged. -/
theorem processBlocksForInsertion_inlimit_eval (r c : Int)
    (hr : 1 ≤ r) (hc : 1 ≤ c) (hin : ¬ 2000 < r * c) :
    processBlocksForInsertion [tableBlockRC r c] none = [tableBlockRC r c] := by
  have htab : processTable ⟨some ⟨some r, some c⟩, false⟩ =
      ⟨some ⟨some r, some c⟩, false⟩ := by
    unfold processTable
    simp only [Option.getD_some]
    rw [fixDim_pos r hr, fixDim_pos c hc, if_neg hin]
  have hpb : processBlock none (tableBlockRC r c) = some (tableBlockRC r c) := by
    rw [tableBlockRC, processBlock_mk, if_neg (by decide), if_neg (by decide)]
    simp [htab, processedChildrenField, tableBlockRC]
  simp [processBlocksForInsertion, hpb]

/-- Counterexample to C5 as stated: a table block with row_size 50 (a
positive value outside [1,9]) and column_size 1 is left unchanged by the
planner — the source clamps to [1,9] only when a dimension is missing or
non-positive — so the post-run row_size is 50 and not within [1,9]. -/
theorem processBlocksForInsertion_nine_counterexample :
    processBlocksForInsertion [tableBlockRC 50 1] none = [tableBlockRC 50 1] ∧
      (tableBlockRC 50 1).tablePayload =
        some ⟨some ⟨some 50, some 1⟩, false⟩ ∧
      ¬ ((50 : Int) ≤ 9) := by
  refine ⟨?_, rfl, by norm_num⟩
  exact processBlocksForInsertion_inlimit_eval 50 1 (by norm_num) (by norm_num)
    (by norm_num)

/-- Closed instance of the amended C5 theorem at the 50-by-1 table. -/
theorem processBlocksForInsertion_table_dims_positive_witness :
    tableDimsPositive (tableBlockRC 50 1) = true :=
  processBlocksForInsertion_table_dims_positive [tableBlockRC 50 1] none
    (tableBlockRC 50 1)
    (by
      rw [processBlocksForInsertion_inlimit_eval 50 1 (by norm_num) (by norm_num)
        (by norm_num)]
      simp)

theorem sqrt_scaled_product_le (R C : Nat) (hR : 1 ≤ R) (hC : 1 ≤ C) :
    Nat.sqrt ((2000 * R * R) / (R * C)) * Nat.sqrt ((2000 * C * C) / (R * C))
      ≤ 2000 := by
  set a := Nat.sqrt ((2000 * R * R) / (R * C)) with ha
  set b := Nat.sqrt ((2000 * C * C) / (R * C)) with hb
  have haa : a * a * (R * C) ≤ 2000 * R * R :=
    calc a * a * (R * C) ≤ ((2000 * R * R) / (R * C)) * (R * C) :=
          Nat.mul_le_mul_right _ (Nat.sqrt_le _)
      _ ≤ 2000 * R * R := Nat.div_mul_le_self _ _
  have hbb : b * b * (R * C) ≤ 2000 * C * C :=
    calc b * b * (R * C) ≤ ((2000 * C * C) / (R * C)) * (R * C) :=
          Nat.mul_le_mul_right _ (Nat.sqrt_le _)
      _ ≤ 2000 * C * C := Nat.div_mul_le_self _ _
  have hprod : (a * a * (R * C)) * (b * b * (R * C)) ≤
      (2000 * R * R) * (2000 * C * C) := Nat.mul_le_mul haa hbb
  have hsq : (a * b) * (a * b) * ((R * C) * (R * C)) ≤
      (2000 * 2000) * ((R * C) * (R * C)) := by
    calc (a * b) * (a * b) * ((R * C) * (R * C))
        = (a * a * (R * C)) * (b * b * (R * C)) := by ring
      _ ≤ (2000 * R * R) * (2000 * C * C) := hprod
      _ = (2000 * 2000) * ((R * C) * (R * C)) := by ring
  have hRC : 0 < (R * C) * (R * C) := by positivity
  have hsq2 : (a * b) * (a * b) ≤ 2000 * 2000 :=
    Nat.le_of_mul_le_mul_right
      (by
        calc (a * b) * (a * b) * ((R * C) * (R * C)) ≤
            (2000 * 2000) * ((R * C) * (R * C)) := hsq
          _ = (2000 * 2000) * ((R * C) * (R * C)) := rfl) hRC
  by_contra hgt
  have h1 : 2001 ≤ a * b := by omega
  have h2 : 2001 * 2001 ≤ (a * b) * (a * b) := Nat.mul_le_mul h1 h1
  omega

/-- C4 (amended): for a table block with positive dimensions whose cell
count exceeds 2000, the planner replaces each dimension by
max 1 (floor (dim * sqrt (2000 / (rows * cols)))); whenever neither scaled
dimension collapses to 0 (so the clamp to 1 does not fire), the resulting
cell count is at most 2000 and the row/column ratio is preserved up to the
floor rounding.  When one scaled dimension does collapse, the clamp to 1
can push the product back above 2000. -/
theorem processBlocksForInsertion_table_cell_bound (r c : Int)
    (hr : 1 ≤ r) (hc : 1 ≤ c) (hover : 2000 < r * c)
    (hrow : 1 ≤ scaledDim r c r) (hcol : 1 ≤ scaledDim r c c) :
    processBlocksForInsertion [tableBlockRC r c] none =
      [.mk (.str ("table"))
        (some ⟨some ⟨some (scaledDim r c r), some (scaledDim r c c)⟩, false⟩)
        none none] ∧
    scaledDim r c r * scaledDim r c c ≤ 2000 := by
  constructor
  · rw [processBlocksForInsertion_overflow_eval r c hr hc hover,
      max_eq_right hrow, max_eq_right hcol]
  · rw [scaledDim, scaledDim]
    have hRn : 1 ≤ r.toNat := by omega
    have hCn : 1 ≤ c.toNat := by omega
    have hnat := sqrt_scaled_product_le r.toNat c.toNat hRn hCn
    simp only [Int.ofNat_eq_coe]
    exact_mod_cast hnat

theorem nat_sqrt_8000000 : Nat.sqrt 8000000 = 2828 := by
  have h1 : 2828 ≤ Nat.sqrt 8000000 := Nat.le_sqrt.mpr (by norm_num)
  have h2 : Nat.sqrt 8000000 < 2829 := Nat.sqrt_lt.mpr (by norm_num)
  omega

theorem nat_sqrt_2000 : Nat.sqrt 2000 = 44 := by
  have h1 : 44 ≤ Nat.sqrt 2000 := Nat.le_sqrt.mpr (by norm_num)
  have h2 : Nat.sqrt 2000 < 45 := Nat.sqrt_lt.mpr (by norm_num)
  omega

theorem scaledDim_1_4000_row : scaledDim 1 4000 1 = 0 := by
  rw [scaledDim]
  have harg : (2000 * (1 : Int).toNat * (1 : Int).toNat) /
      ((1 : Int).toNat * (4000 : Int).toNat) = 0 := by decide
  rw [harg]
  have h2 : Nat.sqrt 0 < 1 := Nat.sqrt_lt.mpr (by norm_num)
  have h3 : Nat.sqrt 0 = 0 := by omega
  rw [h3]
  rfl

theorem scaledDim_1_4000_col : scaledDim 1 4000 4000 = 2828 := by
  rw [scaledDim]
  have harg : (2000 * (4000 : Int).toNat * (4000 : Int).toNat) /
      ((1 : Int).toNat * (4000 : Int).toNat) = 8000000 := by decide
  rw [harg, nat_sqrt_8000000]
  rfl

/-- Counterexample to C4 as stated: the table block with row_size 1 and
column_size 4000 (positive dimensions, 4000 cells, over the 2000 limit) is
shrunk to 1 by 2828 — the clamp max 1 of the collapsed scaled row dimension
breaks the cell bound, leaving 2828 cells, more than 2000. -/
theorem processBlocksForInsertion_cell_bound_counterexample :
    processBlocksForInsertion [tableBlockRC 1 4000] none =
      [.mk (.str ("table")) (some ⟨some ⟨some 1, some 2828⟩, false⟩) none none] ∧
      ¬ ((1 : Int) * 2828 ≤ 2000) := by
  constructor
  · rw [processBlocksForInsertion_overflow_eval 1 4000 (by norm_num) (by norm_num)
      (by norm_num), scaledDim_1_4000_row, scaledDim_1_4000_col]
    norm_num
  · norm_num

theorem scaledDim_50_50 : scaledDim 50 50 50 = 44 := by
  rw [scaledDim]
  have harg : (2000 * (50 : Int).toNat * (50 : Int).toNat) /
      ((50 : Int).toNat * (50 : Int).toNat) = 2000 := by decide
  rw [harg, nat_sqrt_2000]
  rfl

/-- Closed instance of the amended C4 theorem: the 50-by-50 table (2500
cells) is shrunk to 44 by 44, and 44 * 44 = 1936 cells respect the 2000
bound. -/
theorem processBlocksForInsertion_table_cell_bound_witness :
    processBlocksForInsertion [tableBlockRC 50 50] none =
      [.mk (.str ("table")) (some ⟨some ⟨some 44, some 44⟩, false⟩) none none] ∧
      (44 : Int) * 44 ≤ 2000 := by
  have h := processBlocksForInsertion_table_cell_bound 50 50 (by norm_num)
    (by norm_num) (by norm_num) (by rw [scaledDim_50_50]; norm_num)
    (by rw [scaledDim_50_50]; norm_num)
  rw [scaledDim_50_50] at h
  exact h

/-! ### Relationship Validator (C3) -/

/-- A block as consumed by validateAndFixParentChildRelations: an optional
id, a type tag, an optional parent reference and an optional children array
whose entries carry optional ids. -/
structure VBlock where
  block_id : Option String
  block_type : BlockTypeTag
  parent_id : Option String
  children : Option (List (Option String))
deriving DecidableEq

/-- Placeholder for out-of-range reads; never observed in the proofs. -/
def defaultVBlock : VBlock := ⟨none, .num 0, none, none⟩

/-- Index of the entry the source's blockMap holds for id `p`: the map is
filled in list order from every block with a truthy (non-empty) block_id,
later blocks overwriting earlier ones, so the last matching index wins. -/
def blockMapIdx (p : String) : List VBlock → Option Nat
  | [] => none
  | b :: bs =>
    match blockMapIdx p bs with
    | some j => some (j + 1)
    | none =>
      match b.block_id with
      | some idv => if idv ≠ "" ∧ idv = p then some 0 else none
      | none => none

/-- Lookup into the blockMap of validateAndFixParentChildRelations, as an
index into the block list (the JavaScript map stores object references
into that same list). -/
def blockMapLookup (blocks : List VBlock) (p : String) : Option Nat :=
  blockMapIdx p blocks

/-- The children-entries loop of validateAndFixParentChildRelations
(part_005 lines 1797-1816): walk the entries of block `k`, drop entries
whose id is falsy or not in the map, and rewrite the parent_id of each kept
child to block `k`'s id when it differs.  Returns the updated state and the
kept entries (validChildren). -/
def processChildEntries (orig : List VBlock) (k : Nat) :
    List (Option String) → List VBlock → List VBlock × List (Option String)
  | [], s => (s, [])
  | e :: es, s =>
    match e with
    | some cid =>
      if cid ≠ "" then
        match blockMapLookup orig cid with
        | some j =>
          let selfId := (s.getD k defaultVBlock).block_id
          let cb := s.getD j defaultVBlock
          let s2 := if cb.parent_id ≠ selfId
                    then s.set j { cb with parent_id := selfId } else s
          let pr := processChildEntries orig k es s2
          (pr.1, e :: pr.2)
        | none => processChildEntries orig k es s
      else processChildEntries orig k es s
    | none => processChildEntries orig k es s

/-- One iteration of the forEach of validateAndFixParentChildRelations
(part_005 lines 1789-1826) on the block at position `k`: clear a dangling
parent_id, validate and rewrite the children entries, then clear the
parent_id when the parent/child type relation is invalid. -/
def processStep (orig : List VBlock) (s : List VBlock) (k : Nat) : List VBlock :=
  let b := s.getD k defaultVBlock
  let s1 := match b.parent_id with
    | some p =>
      if p ≠ "" ∧ blockMapLookup orig p = none
      then s.set k { b with parent_id := none }
      else s
    | none => s
  let b1 := s1.getD k defaultVBlock
  let s2 := match b1.children with
    | some ch =>
      let pr := processChildEntries orig k ch s1
      let bcur := pr.1.getD k defaultVBlock
      pr.1.set k { bcur with children := if pr.2.isEmpty then none else some pr.2 }
    | none => s1
  let b2 := s2.getD k defaultVBlock
  match b2.parent_id with
  | some p =>
    if p ≠ "" then
      match blockMapLookup orig p with
      | some j =>
        if !(isValidParentChildRelation (s2.getD j defaultVBlock).block_type
              b2.block_type)
        then s2.set k { b2 with parent_id := none }
        else s2
      | none => s2
    else s2
  | none => s2

/-- Embedding of validateAndFixParentChildRelations (part_005 lines
1775-1830): copy the blocks, build the id map once, then run the mutation
pass over every position in order. -/
def validateAndFixParentChildRelations (blocks : List VBlock) : List VBlock :=
  (List.range blocks.length).foldl (processStep blocks) blocks

/-- The children entries of a block, with a missing array read as empty. -/
def childEntries (b : VBlock) : List (Option String) :=
  b.children.getD []

/-- A bullet-typed block with id p and no children array. -/
def vParentBullet : VBlock := ⟨some "p", .str ("bullet"), none, none⟩

/-- A text-typed block with id c whose parent_id references p. -/
def vChildText : VBlock := ⟨some "c", .str ("text"), some "p", none⟩

/-- Counterexample to C3 as stated: the validator leaves the child's
parent_id pointing at p, but never inserts the child into p's children
list — p still has no children array, so the child's id does not appear in
its parent's children exactly once. -/
theorem validateAndFixParentChildRelations_children_counterexample :
    validateAndFixParentChildRelations [vParentBullet, vChildText] =
      [vParentBullet, vChildText] ∧
    ¬ (∀ b2 ∈ validateAndFixParentChildRelations [vParentBullet, vChildText],
        ∀ pid, b2.parent_id = some pid →
          ∃ pb ∈ validateAndFixParentChildRelations [vParentBullet, vChildText],
            pb.block_id = some pid ∧ (childEntries pb).count b2.block_id = 1) := by
  refine ⟨by decide, ?_⟩
  intro hall
  have h := hall vChildText (by decide) "p" (by decide)
  revert h
  decide

/-- The block_id stored at position i (none when out of range). -/
def bidAt (s : List VBlock) (i : Nat) : Option String :=
  (s.getD i defaultVBlock).block_id

/-- The parent_id stored at position i (none when out of range). -/
def pidAt (s : List VBlock) (i : Nat) : Option String :=
  (s.getD i defaultVBlock).parent_id

/-- A parent reference is safe when, whenever it is a truthy id, the blockMap
holds an entry for it. -/
def SafeParentRef (orig : List VBlock) (x : Option String) : Prop :=
  ∀ p, x = some p → p ≠ "" → (blockMapLookup orig p).isSome = true

theorem getD_set_field (s : List VBlock) (j : Nat) (x : VBlock) (i : Nat) :
    (s.set j x).getD i defaultVBlock =
      if j = i ∧ j < s.length then x else s.getD i defaultVBlock := by
  rw [List.getD_eq_getElem?_getD, List.getD_eq_getElem?_getD, List.getElem?_set]
  by_cases h1 : j = i
  · subst h1
    by_cases h2 : j < s.length
    · simp [h2]
    · simp only [if_pos rfl, if_neg h2, h2, and_false, if_false]
      rw [List.getElem?_eq_none (by omega)]
      simp
  · simp [h1]

theorem bidAt_set (s : List VBlock) (j : Nat) (x : VBlock)
    (hx : x.block_id = bidAt s j) (i : Nat) : bidAt (s.set j x) i = bidAt s i := by
  unfold bidAt at *
  rw [getD_set_field]
  by_cases h : j = i ∧ j < s.length
  · rw [if_pos h, hx, h.1]
  · rw [if_neg h]

theorem pidAt_set (s : List VBlock) (j : Nat) (x : VBlock) (i : Nat) :
    pidAt (s.set j x) i =
      if j = i ∧ j < s.length then x.parent_id else pidAt s i := by
  unfold pidAt
  rw [getD_set_field]
  by_cases h : j = i ∧ j < s.length
  · rw [if_pos h, if_pos h]
  · rw [if_neg h, if_neg h]

theorem pidAt_set_preserve (s : List VBlock) (j : Nat) (x : VBlock)
    (hx : x.parent_id = pidAt s j) (i : Nat) : pidAt (s.set j x) i = pidAt s i := by
  rw [pidAt_set]
  by_cases h : j = i ∧ j < s.length
  · rw [if_pos h, hx, h.1]
  · rw [if_neg h]

theorem blockMapIdx_sound (p : String) :
    ∀ bs : List VBlock, ∀ j, blockMapIdx p bs = some j →
      j < bs.length ∧ (bs.getD j defaultVBlock).block_id = some p
  | [], j, h => by simp [blockMapIdx] at h
  | b :: bs, j, h => by
    rw [blockMapIdx] at h
    cases hrec : blockMapIdx p bs with
    | some j2 =>
      simp only [hrec, Option.some.injEq] at h
      subst h
      obtain ⟨h1, h2⟩ := blockMapIdx_sound p bs j2 hrec
      refine ⟨by simpa using Nat.succ_lt_succ h1, ?_⟩
      rw [List.getD_cons_succ]
      exact h2
    | none =>
      cases hb : b.block_id with
      | some idv =>
        simp only [hrec, hb] at h
        by_cases hcond : idv ≠ "" ∧ idv = p
        · rw [if_pos hcond] at h
          simp only [Option.some.injEq] at h
          subst h
          refine ⟨by simp, ?_⟩
          rw [List.getD_cons_zero, hb, hcond.2]
        · rw [if_neg hcond] at h
          exact absurd h (by simp)
      | none =>
        simp only [hrec, hb] at h
        exact absurd h (by simp)

theorem blockMapIdx_complete (p : String) (hpe : p ≠ "") :
    ∀ bs : List VBlock, (∃ b ∈ bs, b.block_id = some p) →
      (blockMapIdx p bs).isSome = true
  | [], h => by simp at h
  | b :: bs, h => by
    rw [blockMapIdx]
    cases hrec : blockMapIdx p bs with
    | some j2 => simp [hrec]
    | none =>
      obtain ⟨b2, hmem, hid⟩ := h
      rcases List.mem_cons.mp hmem with h1 | h2
      · subst h1
        have hcond : p ≠ "" ∧ p = p := ⟨hpe, rfl⟩
        simp only [hrec, hid, if_pos hcond]
        simp
        exact hpe
      · have hx := blockMapIdx_complete p hpe bs ⟨b2, h2, hid⟩
        rw [hrec] at hx
        simp at hx

theorem pce_length (orig : List VBlock) (k : Nat) :
    ∀ (es : List (Option String)) (s : List VBlock),
      (processChildEntries orig k es s).1.length = s.length
  | [], s => rfl
  | e :: es, s => by
    cases e with
    | none =>
      simp only [processChildEntries]
      exact pce_length orig k es s
    | some cid =>
      simp only [processChildEntries]
      by_cases hcid : ¬ cid = ""
      · simp only [if_pos hcid]
        cases hlook : blockMapLookup orig cid with
        | some j =>
          simp only [hlook]
          rw [pce_length orig k es _]
          by_cases hpid : (s.getD j defaultVBlock).parent_id ≠
              (s.getD k defaultVBlock).block_id
          · rw [if_pos hpid, List.length_set]
          · rw [if_neg hpid]
        | none =>
          simp only [hlook]
          exact pce_length orig k es s
      · simp only [if_neg hcid]
        exact pce_length orig k es s

theorem pce_bidAt (orig : List VBlock) (k : Nat) :
    ∀ (es : List (Option String)) (s : List VBlock) (i : Nat),
      bidAt (processChildEntries orig k es s).1 i = bidAt s i
  | [], s, i => rfl
  | e :: es, s, i => by
    cases e with
    | none =>
      simp only [processChildEntries]
      exact pce_bidAt orig k es s i
    | some cid =>
      simp only [processChildEntries]
      by_cases hcid : ¬ cid = ""
      · simp only [if_pos hcid]
        cases hlook : blockMapLookup orig cid with
        | some j =>
          simp only [hlook]
          rw [pce_bidAt orig k es _ i]
          by_cases hpid : (s.getD j defaultVBlock).parent_id ≠
              (s.getD k defaultVBlock).block_id
          · rw [if_pos hpid]
            exact bidAt_set s j
              { s.getD j defaultVBlock with
                parent_id := (s.getD k defaultVBlock).block_id } rfl i
          · rw [if_neg hpid]
        | none =>
          simp only [hlook]
          exact pce_bidAt orig k es s i
      · simp only [if_neg hcid]
        exact pce_bidAt orig k es s i

theorem pce_pidAt (orig : List VBlock) (k : Nat) :
    ∀ (es : List (Option String)) (s : List VBlock) (i : Nat),
      pidAt (processChildEntries orig k es s).1 i = pidAt s i ∨
        pidAt (processChildEntries orig k es s).1 i = bidAt s k
  | [], s, i => Or.inl rfl
  | e :: es, s, i => by
    cases e with
    | none =>
      simp only [processChildEntries]
      exact pce_pidAt orig k es s i
    | some cid =>
      simp only [processChildEntries]
      by_cases hcid : ¬ cid = ""
      · simp only [if_pos hcid]
        cases hlook : blockMapLookup orig cid with
        | some j =>
          simp only [hlook]
          by_cases hpid : (s.getD j defaultVBlock).parent_id ≠
              (s.getD k defaultVBlock).block_id
          · simp only [if_pos hpid]
            have hbk : bidAt (s.set j
                { s.getD j defaultVBlock with
                  parent_id := (s.getD k defaultVBlock).block_id }) k = bidAt s k :=
              bidAt_set s j
                { s.getD j defaultVBlock with
                  parent_id := (s.getD k defaultVBlock).block_id } rfl k
            rcases pce_pidAt orig k es
                (s.set j
                  { s.getD j defaultVBlock with
                    parent_id := (s.getD k defaultVBlock).block_id }) i with h1 | h2
            · rw [h1, pidAt_set]
              by_cases hji : j = i ∧ j < s.length
              · rw [if_pos hji]
                exact Or.inr rfl
              · rw [if_neg hji]
                exact Or.inl rfl
            · rw [h2, hbk]
              exact Or.inr rfl
          · simp only [if_neg hpid]
            exact pce_pidAt orig k es s i
        | none =>
          simp only [hlook]
          exact pce_pidAt orig k es s i
      · simp only [if_neg hcid]
        exact pce_pidAt orig k es s i

/-- Stage 1 of processStep, split on the parent_id value: clear a dangling
parent reference. -/
def stepClearCore (orig : List VBlock) (k : Nat) (s : List VBlock) :
    Option String → List VBlock
  | some p =>
    if p ≠ "" ∧ blockMapLookup orig p = none
    then s.set k { s.getD k defaultVBlock with parent_id := none }
    else s
  | none => s

/-- Stage 1 of processStep. -/
def stepClear (orig : List VBlock) (k : Nat) (s : List VBlock) : List VBlock :=
  stepClearCore orig k s (s.getD k defaultVBlock).parent_id

/-- Stage 2 of processStep, split on the children value: rewrite the
children entries. -/
def stepChildrenCore (orig : List VBlock) (k : Nat) (s1 : List VBlock) :
    Option (List (Option String)) → List VBlock
  | some ch =>
    (processChildEntries orig k ch s1).1.set k
      { (processChildEntries orig k ch s1).1.getD k defaultVBlock with
        children := if (processChildEntries orig k ch s1).2.isEmpty then none
                    else some (processChildEntries orig k ch s1).2 }
  | none => s1

/-- Stage 2 of processStep. -/
def stepChildren (orig : List VBlock) (k : Nat) (s1 : List VBlock) : List VBlock :=
  stepChildrenCore orig k s1 (s1.getD k defaultVBlock).children

/-- Stage 3 of processStep when the map lookup found the parent. -/
def stepTypeCheckFound (k : Nat) (s2 : List VBlock) (j : Nat) : List VBlock :=
  if (!(isValidParentChildRelation (s2.getD j defaultVBlock).block_type
        (s2.getD k defaultVBlock).block_type)) = true
  then s2.set k { s2.getD k defaultVBlock with parent_id := none }
  else s2

/-- Stage 3 of processStep, split on the map lookup. -/
def stepTypeCheckLookup (k : Nat) (s2 : List VBlock) : Option Nat → List VBlock
  | some j => stepTypeCheckFound k s2 j
  | none => s2

/-- Stage 3 of processStep, split on the parent_id value: drop a
type-invalid parent reference. -/
def stepTypeCheckCore (orig : List VBlock) (k : Nat) (s2 : List VBlock) :
    Option String → List VBlock
  | some p =>
    if p ≠ "" then stepTypeCheckLookup k s2 (blockMapLookup orig p) else s2
  | none => s2

/-- Stage 3 of processStep. -/
def stepTypeCheck (orig : List VBlock) (k : Nat) (s2 : List VBlock) : List VBlock :=
  stepTypeCheckCore orig k s2 (s2.getD k defaultVBlock).parent_id

theorem processStep_eq (orig : List VBlock) (s : List VBlock) (k : Nat) :
    processStep orig s k =
      stepTypeCheck orig k (stepChildren orig k (stepClear orig k s)) := rfl

theorem stepClear_of_none (orig : List VBlock) (k : Nat) (s : List VBlock)
    (h : (s.getD k defaultVBlock).parent_id = none) : stepClear orig k s = s := by
  rw [stepClear, h]
  rfl

theorem stepClear_of_clear (orig : List VBlock) (k : Nat) (s : List VBlock)
    (p : String) (h : (s.getD k defaultVBlock).parent_id = some p)
    (hc : p ≠ "" ∧ blockMapLookup orig p = none) :
    stepClear orig k s = s.set k { s.getD k defaultVBlock with parent_id := none } := by
  rw [stepClear, h]
  show (if p ≠ "" ∧ blockMapLookup orig p = none
        then s.set k { s.getD k defaultVBlock with parent_id := none } else s) = _
  rw [if_pos hc]

theorem stepClear_of_keep (orig : List VBlock) (k : Nat) (s : List VBlock)
    (p : String) (h : (s.getD k defaultVBlock).parent_id = some p)
    (hc : ¬ (p ≠ "" ∧ blockMapLookup orig p = none)) : stepClear orig k s = s := by
  rw [stepClear, h]
  show (if p ≠ "" ∧ blockMapLookup orig p = none
        then s.set k { s.getD k defaultVBlock with parent_id := none } else s) = _
  rw [if_neg hc]

theorem stepChildren_of_none (orig : List VBlock) (k : Nat) (s1 : List VBlock)
    (h : (s1.getD k defaultVBlock).children = none) : stepChildren orig k s1 = s1 := by
  rw [stepChildren, h]
  rfl

theorem stepChildren_of_some (orig : List VBlock) (k : Nat) (s1 : List VBlock)
    (ch : List (Option String)) (h : (s1.getD k defaultVBlock).children = some ch) :
    stepChildren orig k s1 =
      (processChildEntries orig k ch s1).1.set k
        { (processChildEntries orig k ch s1).1.getD k defaultVBlock with
          children := if (processChildEntries orig k ch s1).2.isEmpty then none
                      else some (processChildEntries orig k ch s1).2 } := by
  rw [stepChildren, h]
  rfl

theorem stepTypeCheck_of_none (orig : List VBlock) (k : Nat) (s2 : List VBlock)
    (h : (s2.getD k defaultVBlock).parent_id = none) : stepTypeCheck orig k s2 = s2 := by
  rw [stepTypeCheck, h]
  rfl

theorem stepTypeCheck_of_empty (orig : List VBlock) (k : Nat) (s2 : List VBlock)
    (h : (s2.getD k defaultVBlock).parent_id = some "") :
    stepTypeCheck orig k s2 = s2 := by
  rw [stepTypeCheck, h]
  show (if ("" : String) ≠ "" then stepTypeCheckLookup k s2 (blockMapLookup orig "")
        else s2) = _
  rw [if_neg (by simp)]

theorem stepTypeCheck_of_nolookup (orig : List VBlock) (k : Nat) (s2 : List VBlock)
    (p : String) (h : (s2.getD k defaultVBlock).parent_id = some p) (hpe : p ≠ "")
    (hlook : blockMapLookup orig p = none) : stepTypeCheck orig k s2 = s2 := by
  rw [stepTypeCheck, h]
  show (if p ≠ "" then stepTypeCheckLookup k s2 (blockMapLookup orig p) else s2) = _
  rw [if_pos hpe, hlook]
  rfl

theorem stepTypeCheck_of_found (orig : List VBlock) (k : Nat) (s2 : List VBlock)
    (p : String) (j : Nat) (h : (s2.getD k defaultVBlock).parent_id = some p)
    (hpe : p ≠ "") (hlook : blockMapLookup orig p = some j) :
    stepTypeCheck orig k s2 = stepTypeCheckFound k s2 j := by
  rw [stepTypeCheck, h]
  show (if p ≠ "" then stepTypeCheckLookup k s2 (blockMapLookup orig p) else s2) = _
  rw [if_pos hpe, hlook]
  rfl

theorem stepTypeCheckFound_cases (k : Nat) (s2 : List VBlock) (j : Nat) :
    stepTypeCheckFound k s2 j =
        s2.set k { s2.getD k defaultVBlock with parent_id := none } ∨
      stepTypeCheckFound k s2 j = s2 := by
  rw [stepTypeCheckFound]
  by_cases hv : (!(isValidParentChildRelation (s2.getD j defaultVBlock).block_type
      (s2.getD k defaultVBlock).block_type)) = true
  · rw [if_pos hv]
    exact Or.inl rfl
  · rw [if_neg hv]
    exact Or.inr rfl

theorem safeParentRef_none (orig : List VBlock) : SafeParentRef orig none :=
  fun _ hq _ => absurd hq (by simp)

theorem safeParentRef_bidAt (orig s : List VBlock)
    (hbid : ∀ i, bidAt s i = bidAt orig i) (k : Nat) :
    SafeParentRef orig (bidAt s k) := by
  intro p hp hpe
  rw [hbid k] at hp
  by_cases hk : k < orig.length
  · have hmem : orig.getD k defaultVBlock ∈ orig := by
      rw [List.getD_eq_getElem orig _ hk]
      exact List.getElem_mem hk
    exact blockMapIdx_complete p hpe orig ⟨_, hmem, hp⟩
  · rw [bidAt, List.getD_eq_default _ _ (by omega)] at hp
    exact absurd hp (by simp [defaultVBlock])

theorem stepClear_length (orig : List VBlock) (k : Nat) (s : List VBlock) :
    (stepClear orig k s).length = s.length := by
  cases hp : (s.getD k defaultVBlock).parent_id with
  | none => rw [stepClear_of_none orig k s hp]
  | some p =>
    by_cases hc : p ≠ "" ∧ blockMapLookup orig p = none
    · rw [stepClear_of_clear orig k s p hp hc, List.length_set]
    · rw [stepClear_of_keep orig k s p hp hc]

theorem stepClear_bidAt (orig : List VBlock) (k : Nat) (s : List VBlock) (i : Nat) :
    bidAt (stepClear orig k s) i = bidAt s i := by
  cases hp : (s.getD k defaultVBlock).parent_id with
  | none => rw [stepClear_of_none orig k s hp]
  | some p =>
    by_cases hc : p ≠ "" ∧ blockMapLookup orig p = none
    · rw [stepClear_of_clear orig k s p hp hc]
      exact bidAt_set s k { s.getD k defaultVBlock with parent_id := none } rfl i
    · rw [stepClear_of_keep orig k s p hp hc]

theorem stepClear_pidAt (orig : List VBlock) (k : Nat) (s : List VBlock) (i : Nat) :
    pidAt (stepClear orig k s) i = pidAt s i ∨
      pidAt (stepClear orig k s) i = none := by
  cases hp : (s.getD k defaultVBlock).parent_id with
  | none => exact Or.inl (by rw [stepClear_of_none orig k s hp])
  | some p =>
    by_cases hc : p ≠ "" ∧ blockMapLookup orig p = none
    · rw [stepClear_of_clear orig k s p hp hc, pidAt_set]
      by_cases hk : k = i ∧ k < s.length
      · rw [if_pos hk]
        exact Or.inr rfl
      · rw [if_neg hk]
        exact Or.inl rfl
    · exact Or.inl (by rw [stepClear_of_keep orig k s p hp hc])

theorem stepClear_self_safe (orig : List VBlock) (k : Nat) (s : List VBlock) :
    SafeParentRef orig (pidAt (stepClear orig k s) k) := by
  cases hp : (s.getD k defaultVBlock).parent_id with
  | none =>
    rw [stepClear_of_none orig k s hp]
    intro q hq _
    rw [pidAt, hp] at hq
    exact absurd hq (by simp)
  | some p =>
    by_cases hc : p ≠ "" ∧ blockMapLookup orig p = none
    · rw [stepClear_of_clear orig k s p hp hc]
      intro q hq _
      rw [pidAt_set] at hq
      by_cases hk : k = k ∧ k < s.length
      · rw [if_pos hk] at hq
        exact absurd hq (by simp)
      · rw [if_neg hk] at hq
        have hklen : s.length ≤ k := by
          rcases Nat.lt_or_ge k s.length with h1 | h2
          · exact absurd ⟨rfl, h1⟩ hk
          · exact h2
        rw [pidAt, List.getD_eq_default _ _ hklen] at hq
        exact absurd hq (by simp [defaultVBlock])
    · rw [stepClear_of_keep orig k s p hp hc]
      intro q hq hqe
      rw [pidAt, hp] at hq
      simp only [Option.some.injEq] at hq
      subst hq
      rcases Decidable.not_and_iff_or_not.mp hc with h1 | h2
      · exact absurd hqe (by simpa using h1)
      · exact Option.isSome_iff_ne_none.mpr h2

theorem stepChildren_length (orig : List VBlock) (k : Nat) (s1 : List VBlock) :
    (stepChildren orig k s1).length = s1.length := by
  cases hch : (s1.getD k defaultVBlock).children with
  | none => rw [stepChildren_of_none orig k s1 hch]
  | some ch =>
    rw [stepChildren_of_some orig k s1 ch hch, List.length_set, pce_length]

theorem stepChildren_bidAt (orig : List VBlock) (k : Nat) (s1 : List VBlock) (i : Nat) :
    bidAt (stepChildren orig k s1) i = bidAt s1 i := by
  cases hch : (s1.getD k defaultVBlock).children with
  | none => rw [stepChildren_of_none orig k s1 hch]
  | some ch =>
    rw [stepChildren_of_some orig k s1 ch hch]
    rw [bidAt_set (processChildEntries orig k ch s1).1 k
      { (processChildEntries orig k ch s1).1.getD k defaultVBlock with
        children := if (processChildEntries orig k ch s1).2.isEmpty then none
                    else some (processChildEntries orig k ch s1).2 } rfl i]
    exact pce_bidAt orig k ch s1 i

theorem stepChildren_pidAt (orig : List VBlock) (k : Nat) (s1 : List VBlock) (i : Nat) :
    pidAt (stepChildren orig k s1) i = pidAt s1 i ∨
      pidAt (stepChildren orig k s1) i = bidAt s1 k := by
  cases hch : (s1.getD k defaultVBlock).children with
  | none => exact Or.inl (by rw [stepChildren_of_none orig k s1 hch])
  | some ch =>
    rw [stepChildren_of_some orig k s1 ch hch]
    rw [pidAt_set_preserve (processChildEntries orig k ch s1).1 k
      { (processChildEntries orig k ch s1).1.getD k defaultVBlock with
        children := if (processChildEntries orig k ch s1).2.isEmpty then none
                    else some (processChildEntries orig k ch s1).2 } rfl i]
    exact pce_pidAt orig k ch s1 i

theorem stepTypeCheck_length (orig : List VBlock) (k : Nat) (s2 : List VBlock) :
    (stepTypeCheck orig k s2).length = s2.length := by
  cases hp : (s2.getD k defaultVBlock).parent_id with
  | none => rw [stepTypeCheck_of_none orig k s2 hp]
  | some p =>
    by_cases hpe : ¬ p = ""
    · cases hlook : blockMapLookup orig p with
      | none => rw [stepTypeCheck_of_nolookup orig k s2 p hp hpe hlook]
      | some j =>
        rw [stepTypeCheck_of_found orig k s2 p j hp hpe hlook]
        rcases stepTypeCheckFound_cases k s2 j with h | h
        · rw [h, List.length_set]
        · rw [h]
    · have hp2 : (s2.getD k defaultVBlock).parent_id = some "" := by
        rw [hp, not_not.mp hpe]
      rw [stepTypeCheck_of_empty orig k s2 hp2]

theorem stepTypeCheck_bidAt (orig : List VBlock) (k : Nat) (s2 : List VBlock) (i : Nat) :
    bidAt (stepTypeCheck orig k s2) i = bidAt s2 i := by
  cases hp : (s2.getD k defaultVBlock).parent_id with
  | none => rw [stepTypeCheck_of_none orig k s2 hp]
  | some p =>
    by_cases hpe : ¬ p = ""
    · cases hlook : blockMapLookup orig p with
      | none => rw [stepTypeCheck_of_nolookup orig k s2 p hp hpe hlook]
      | some j =>
        rw [stepTypeCheck_of_found orig k s2 p j hp hpe hlook]
        rcases stepTypeCheckFound_cases k s2 j with h | h
        · rw [h]
          exact bidAt_set s2 k { s2.getD k defaultVBlock with parent_id := none } rfl i
        · rw [h]
    · have hp2 : (s2.getD k defaultVBlock).parent_id = some "" := by
        rw [hp, not_not.mp hpe]
      rw [stepTypeCheck_of_empty orig k s2 hp2]

theorem stepTypeCheck_pidAt (orig : List VBlock) (k : Nat) (s2 : List VBlock) (i : Nat) :
    pidAt (stepTypeCheck orig k s2) i = pidAt s2 i ∨
      pidAt (stepTypeCheck orig k s2) i = none := by
  cases hp : (s2.getD k defaultVBlock).parent_id with
  | none => exact Or.inl (by rw [stepTypeCheck_of_none orig k s2 hp])
  | some p =>
    by_cases hpe : ¬ p = ""
    · cases hlook : blockMapLookup orig p with
      | none => exact Or.inl (by rw [stepTypeCheck_of_nolookup orig k s2 p hp hpe hlook])
      | some j =>
        rw [stepTypeCheck_of_found orig k s2 p j hp hpe hlook]
        rcases stepTypeCheckFound_cases k s2 j with h | h
        · rw [h, pidAt_set]
          by_cases hk : k = i ∧ k < s2.length
          · rw [if_pos hk]
            exact Or.inr rfl
          · rw [if_neg hk]
            exact Or.inl rfl
        · rw [h]
          exact Or.inl rfl
    · have hp2 : (s2.getD k defaultVBlock).parent_id = some "" := by
        rw [hp, not_not.mp hpe]
      exact Or.inl (by rw [stepTypeCheck_of_empty orig k s2 hp2])

theorem stepTypeCheck_self_safe (orig : List VBlock) (k : Nat) (s2 : List VBlock)
    (hs : SafeParentRef orig (pidAt s2 k)) :
    SafeParentRef orig (pidAt (stepTypeCheck orig k s2) k) := by
  rcases stepTypeCheck_pidAt orig k s2 k with h | h
  · rw [h]
    exact hs
  · rw [h]
    exact safeParentRef_none orig

theorem processStep_length (orig : List VBlock) (s : List VBlock) (k : Nat) :
    (processStep orig s k).length = s.length := by
  rw [processStep_eq, stepTypeCheck_length, stepChildren_length, stepClear_length]

theorem processStep_bidAt (orig : List VBlock) (s : List VBlock) (k : Nat) (i : Nat) :
    bidAt (processStep orig s k) i = bidAt s i := by
  rw [processStep_eq, stepTypeCheck_bidAt, stepChildren_bidAt, stepClear_bidAt]

theorem processStep_pidAt (orig : List VBlock) (s : List VBlock) (k : Nat) (i : Nat) :
    pidAt (processStep orig s k) i = pidAt s i ∨
      pidAt (processStep orig s k) i = none ∨
      pidAt (processStep orig s k) i = bidAt s k := by
  rw [processStep_eq]
  rcases stepTypeCheck_pidAt orig k (stepChildren orig k (stepClear orig k s)) i
      with h3 | h3
  · rw [h3]
    rcases stepChildren_pidAt orig k (stepClear orig k s) i with h2 | h2
    · rw [h2]
      rcases stepClear_pidAt orig k s i with h1 | h1
      · exact Or.inl h1
      · exact Or.inr (Or.inl h1)
    · rw [h2, stepClear_bidAt]
      exact Or.inr (Or.inr rfl)
  · exact Or.inr (Or.inl h3)

theorem processStep_safe_preserve (orig : List VBlock) (s : List VBlock) (k : Nat)
    (hbid : ∀ i, bidAt s i = bidAt orig i) (i : Nat)
    (hs : SafeParentRef orig (pidAt s i)) :
    SafeParentRef orig (pidAt (processStep orig s k) i) := by
  rcases processStep_pidAt orig s k i with h | h | h
  · rw [h]
    exact hs
  · rw [h]
    exact safeParentRef_none orig
  · rw [h]
    exact safeParentRef_bidAt orig s hbid k

theorem processStep_self_safe (orig : List VBlock) (s : List VBlock) (k : Nat)
    (hbid : ∀ i, bidAt s i = bidAt orig i) :
    SafeParentRef orig (pidAt (processStep orig s k) k) := by
  rw [processStep_eq]
  have hbid1 : ∀ i, bidAt (stepClear orig k s) i = bidAt orig i := by
    intro i
    rw [stepClear_bidAt]
    exact hbid i
  have hsafe1 : SafeParentRef orig (pidAt (stepClear orig k s) k) :=
    stepClear_self_safe orig k s
  have hsafe2 : SafeParentRef orig (pidAt (stepChildren orig k (stepClear orig k s)) k) := by
    rcases stepChildren_pidAt orig k (stepClear orig k s) k with h | h
    · rw [h]
      exact hsafe1
    · rw [h]
      exact safeParentRef_bidAt orig (stepClear orig k s) hbid1 k
  exact stepTypeCheck_self_safe orig k (stepChildren orig k (stepClear orig k s)) hsafe2

theorem foldl_processStep_inv (orig : List VBlock) :
    ∀ (ks : List Nat) (s : List VBlock),
      s.length = orig.length → (∀ i, bidAt s i = bidAt orig i) →
      ((ks.foldl (processStep orig) s).length = orig.length ∧
       (∀ i, bidAt (ks.foldl (processStep orig) s) i = bidAt orig i) ∧
       (∀ i, SafeParentRef orig (pidAt s i) →
          SafeParentRef orig (pidAt (ks.foldl (processStep orig) s) i)) ∧
       (∀ i ∈ ks, SafeParentRef orig (pidAt (ks.foldl (processStep orig) s) i)))
  | [], s, hlen, hbid => ⟨hlen, hbid, fun _ hs => hs, by simp⟩
  | k :: ks, s, hlen, hbid => by
    simp only [List.foldl_cons]
    have hlen1 : (processStep orig s k).length = orig.length := by
      rw [processStep_length]
      exact hlen
    have hbid1 : ∀ i, bidAt (processStep orig s k) i = bidAt orig i := by
      intro i
      rw [processStep_bidAt]
      exact hbid i
    have ih := foldl_processStep_inv orig ks (processStep orig s k) hlen1 hbid1
    refine ⟨ih.1, ih.2.1, ?_, ?_⟩
    · intro i hs
      exact ih.2.2.1 i (processStep_safe_preserve orig s k hbid i hs)
    · intro i hik
      rcases List.mem_cons.mp hik with h1 | h2
      · subst h1
        exact ih.2.2.1 i (processStep_self_safe orig s i hbid)
      · exact ih.2.2.2 i h2

/-- C3 (amended): after validateAndFixParentChildRelations runs, no block's
non-empty parent_id references a nonexistent block — some block with that
block_id is present in the returned list.  The second half of the original
claim fails: the validator never inserts a missing child entry into the
parent's children list (see the counterexample). -/
theorem validateAndFixParentChildRelations_no_dangling_parent
    (blocks : List VBlock) (b : VBlock)
    (hb : b ∈ validateAndFixParentChildRelations blocks)
    (p : String) (hp : b.parent_id = some p) (hpe : p ≠ "") :
    ∃ b2 ∈ validateAndFixParentChildRelations blocks, b2.block_id = some p := by
  have hinv := foldl_processStep_inv blocks (List.range blocks.length) blocks rfl
    (fun _ => rfl)
  rw [validateAndFixParentChildRelations] at hb ⊢
  obtain ⟨i, hilt, hieq⟩ := List.mem_iff_getElem.mp hb
  have hilen : i < blocks.length := by
    rw [hinv.1] at hilt
    exact hilt
  have hsafe := hinv.2.2.2 i (List.mem_range.mpr hilen)
  have hpid : pidAt ((List.range blocks.length).foldl (processStep blocks) blocks) i
      = some p := by
    rw [pidAt, List.getD_eq_getElem _ _ hilt, hieq]
    exact hp
  have hlook := hsafe p hpid hpe
  obtain ⟨j, hj⟩ := Option.isSome_iff_exists.mp hlook
  obtain ⟨hjlt, hjid⟩ := blockMapIdx_sound p blocks j hj
  refine ⟨((List.range blocks.length).foldl (processStep blocks) blocks).getD j
    defaultVBlock, ?_, ?_⟩
  · have hjlt2 : j < ((List.range blocks.length).foldl (processStep blocks)
        blocks).length := by
      rw [hinv.1]
      exact hjlt
    rw [List.getD_eq_getElem _ _ hjlt2]
    exact List.getElem_mem hjlt2
  · have := hinv.2.1 j
    rw [bidAt, bidAt] at this
    rw [this]
    exact hjid

/-- Closed instance of the amended C3 theorem at the two-block example. -/
theorem validateAndFixParentChildRelations_no_dangling_parent_witness :
    ∃ b2 ∈ validateAndFixParentChildRelations [vParentBullet, vChildText],
      b2.block_id = some ("p") :=
  validateAndFixParentChildRelations_no_dangling_parent
    [vParentBullet, vChildText] vChildText (by decide) "p" rfl (by decide)

/-! ### Block Reconciler (C1, C2) -/

/-- Exact fraction standing in for a JavaScript number in the similarity
scores.  All constructors used keep the denominator positive, so the
cross-multiplication comparisons below agree with the rational order. -/
structure JNum where
  num : Int
  den : Int
deriving DecidableEq

/-- Fraction addition. -/
def jadd (a b : JNum) : JNum := ⟨a.num * b.den + b.num * a.den, a.den * b.den⟩

/-- Fraction multiplication. -/
def jmul (a b : JNum) : JNum := ⟨a.num * b.num, a.den * b.den⟩

/-- Fraction division (never called with a non-positive divisor on the
reachable paths). -/
def jdiv (a b : JNum) : JNum :=
  if b.num ≤ 0 then ⟨0, 1⟩ else ⟨a.num * b.den, a.den * b.num⟩

/-- Strict fraction comparison by cross multiplication. -/
def jlt (a b : JNum) : Bool := decide (a.num * b.den < b.num * a.den)

/-- Non-strict fraction comparison by cross multiplication. -/
def jle (a b : JNum) : Bool := decide (a.num * b.den ≤ b.num * a.den)

/-- Model of Math.max on fractions. -/
def jmax (a b : JNum) : JNum := if jlt a b then b else a

/-- Block payload as read by getBlockContentPreview: the source probes the
payload fields in order, so a block is modelled with its single present
payload; elements carry the optional text_run content of the source. -/
inductive MPayload where
  | text (elements : List (Option JStr))
  | heading1 (elements : List (Option JStr))
  | heading2 (elements : List (Option JStr))
  | heading3 (elements : List (Option JStr))
  | bullet (elements : List (Option JStr))
  | ordered (elements : List (Option JStr))
  | quote (elements : List (Option JStr))
  | image
  | code (language : Option JStr)
  | nopayload
deriving DecidableEq

/-- A block as consumed by the reconciler. -/
structure MBlock where
  block_type : BlockTypeTag
  payload : MPayload
deriving DecidableEq

/-- Placeholder for out-of-range reads. -/
def defaultMBlock : MBlock := ⟨.num 0, .nopayload⟩

/-- The filter-map-join of an elements array: keep elements with a truthy
text_run content and join the contents. -/
def elementsText (els : List (Option JStr)) : JStr :=
  ((els.filter (fun e => match e with | some s => !s.isEmpty | none => false)).map
    (fun e => e.getD [])).flatten

/-- String form of a block_type, as interpolated by the default preview. -/
def btToString (bt : BlockTypeTag) : JStr :=
  match bt with
  | .num n => (toString n).toList
  | .str s => s.toList

/-- The truncation content.substring(0, k) plus a trailing ellipsis marker
when content is longer than k. -/
def previewTruncate (t : JStr) (k : Nat) : JStr :=
  t.take k ++ (if k < t.length then ("...").toList else [])

/-- Embedding of getBlockContentPreview (part_005 lines 1377-1447). -/
def getBlockContentPreview (block : MBlock) : JStr :=
  match block.payload with
  | .text els => previewTruncate (elementsText els) 50
  | .heading1 els => ("H1: ").toList ++ previewTruncate (elementsText els) 40
  | .heading2 els => ("H2: ").toList ++ previewTruncate (elementsText els) 40
  | .heading3 els => ("H3: ").toList ++ previewTruncate (elementsText els) 40
  | .bullet els => ("• ").toList ++ previewTruncate (elementsText els) 40
  | .ordered els => ("1. ").toList ++ previewTruncate (elementsText els) 40
  | .quote els => ("> ").toList ++ previewTruncate (elementsText els) 40
  | .image => ("[图片]").toList
  | .code lang =>
    match lang with
    | some l =>
      if !l.isEmpty then ("[代码块: ").toList ++ l ++ [(']')]
      else [('[')] ++ btToString block.block_type ++ [(']')]
    | none => [('[')] ++ btToString block.block_type ++ [(']')]
  | .nopayload => [('[')] ++ btToString block.block_type ++ [(']')]

/-- Regex replace of the leading heading marker ^(h\d+:\s*)/i inside
cleanContentForComparison. -/
def stripHeadingMark (s : JStr) : JStr :=
  match s with
  | c :: rest =>
    if c == ('h') || c == ('H') then
      let ds := rest.takeWhile (fun d => d.isDigit)
      if ds.isEmpty then s
      else
        match rest.drop ds.length with
        | d :: rest2 => if d = (':') then rest2.dropWhile jsWhitespace else s
        | [] => s
    else s
  | [] => s

/-- Regex replace of the leading ordered-list marker ^(\d+\.\s*). -/
def stripOrderedMark (s : JStr) : JStr :=
  let ds := s.takeWhile (fun d => d.isDigit)
  if ds.isEmpty then s
  else
    match s.drop ds.length with
    | d :: rest2 => if d = ('.') then rest2.dropWhile jsWhitespace else s
    | [] => s

/-- Regex replace of the leading bullet marker ^(-\s*|\*\s*). -/
def stripBulletMark (s : JStr) : JStr :=
  match s with
  | c :: rest =>
    if c == ('-') || c == ('*') then rest.dropWhile jsWhitespace else s
  | [] => s

/-- Character class [\w\s一-鿿>!] kept by the comparison cleaner. -/
def keepComparisonChar (c : Char) : Bool :=
  c.isAlphanum || c == ('_') || jsWhitespace c ||
    (decide (0x4e00 ≤ c.toNat) && decide (c.toNat ≤ 0x9fff)) ||
    c == ('>') || c == ('!')

/-- Embedding of cleanContentForComparison (part_005 lines 1309-1326). -/
def cleanContentForComparison (content : JStr) : JStr :=
  let cleaned := jsTrim (content.map Char.toLower)
  if cleaned.length ≤ 2 then cleaned
  else
    jsTrim ((stripBulletMark (stripOrderedMark (stripHeadingMark cleaned))).filter
      keepComparisonChar)

/-- One row-extension step of the Levenshtein dynamic program. -/
def levRow (c2 : Char) : JStr → List Nat → Nat → List Nat
  | [], _, _ => []
  | _ :: _, [], _ => []
  | c1 :: cs, pdiag :: prest, left =>
    let above := prest.headD 0
    let cur := min (min (left + 1) (above + 1)) (pdiag + (if c1 = c2 then 0 else 1))
    cur :: levRow c2 cs prest cur

/-- Embedding of levenshteinDistance (part_005 lines 1350-1368), computed
row by row like the source's matrix. -/
def levenshteinDistance (s1 s2 : JStr) : Nat :=
  (s2.foldl
    (fun prev c2 => (prev.headD 0 + 1) :: levRow c2 s1 prev (prev.headD 0 + 1))
    (List.range (s1.length + 1))).getLastD 0

/-- Embedding of calculateCharacterSimilarity (part_005 lines 1334-1342). -/
def calculateCharacterSimilarity (s1 s2 : JStr) : JNum :=
  if s1.isEmpty && s2.isEmpty then ⟨1, 1⟩
  else if s1.isEmpty || s2.isEmpty then ⟨0, 1⟩
  else
    jmax ⟨0, 1⟩
      ⟨(max s1.length s2.length : Int) - (levenshteinDistance s1 s2 : Int),
       (max s1.length s2.length : Int)⟩

/-- Accumulating splitter for the \s+ word split. -/
def splitNonWsGo (cur : JStr) : JStr → List JStr
  | [] => if cur.isEmpty then [] else [cur.reverse]
  | c :: rest =>
    if jsWhitespace c then
      if cur.isEmpty then splitNonWsGo [] rest
      else cur.reverse :: splitNonWsGo [] rest
    else splitNonWsGo (c :: cur) rest

/-- The word list of the similarity scorer: split on whitespace runs and
keep only words longer than one character. -/
def wordsOf (s : JStr) : List JStr :=
  (splitNonWsGo [] s).filter (fun w => decide (1 < w.length))

/-- Embedding of calculateAdvancedContentSimilarity (part_005 lines
1259-1302). -/
def calculateAdvancedContentSimilarity (content1 content2 : JStr) : JNum :=
  if content1.isEmpty || content2.isEmpty then ⟨0, 1⟩
  else
    let clean1 := cleanContentForComparison content1
    let clean2 := cleanContentForComparison content2
    if clean1 = clean2 then ⟨1, 1⟩
    else
      let lengthRatio := jdiv ⟨(min clean1.length clean2.length : Int), 1⟩
        ⟨(max clean1.length clean2.length : Int), 1⟩
      if jlt lengthRatio ⟨3, 10⟩ then ⟨0, 1⟩
      else if containsSub clean1 clean2 && decide (3 ≤ clean2.length) then ⟨8, 10⟩
      else if containsSub clean2 clean1 && decide (3 ≤ clean1.length) then ⟨8, 10⟩
      else
        let words1 := wordsOf clean1
        let words2 := wordsOf clean2
        if words1.isEmpty || words2.isEmpty then
          calculateCharacterSimilarity clean1 clean2
        else
          let commonWords := words1.filter (fun w => words2.contains w)
          let overlapRatio := jdiv ⟨(commonWords.length : Int), 1⟩
            ⟨(max words1.length words2.length : Int), 1⟩
          if commonWords.isEmpty then ⟨0, 1⟩
          else if jle ⟨8, 10⟩ overlapRatio then ⟨9, 10⟩
          else if jle ⟨6, 10⟩ overlapRatio then ⟨7, 10⟩
          else if jle ⟨4, 10⟩ overlapRatio then ⟨5, 10⟩
          else if jle ⟨2, 10⟩ overlapRatio then ⟨3, 10⟩
          else ⟨1, 10⟩

/-- A ground-truth structural element of parseMarkdownStructure. -/
structure StructElem where
  type : String
  content : JStr
  line : Nat
deriving DecidableEq

/-- Embedding of calculateContentMatchScore (part_005 lines 1203-1251). -/
def calculateContentMatchScore (block : MBlock) (struct : StructElem) : JNum :=
  let blockContent := getBlockContentPreview block
  if blockContent.isEmpty || struct.content.isEmpty then ⟨0, 1⟩
  else
    let cleanBlockContent := cleanContentForComparison blockContent
    let cleanStructContent := cleanContentForComparison struct.content
    if cleanBlockContent = cleanStructContent then ⟨1, 1⟩
    else
      let blockType := mapBlockTypeToMarkdown block.block_type
      let typeScore : JNum :=
        if blockType = struct.type then
          if blockType = "ordered" ∨ blockType = "bullet" then ⟨6, 10⟩ else ⟨4, 10⟩
        else if struct.type = "quote" ∧ block.block_type = .num 15 then
          if containsSub blockContent (("[!").toList) then ⟨35, 100⟩ else ⟨4, 10⟩
        else ⟨0, 1⟩
      if jlt ⟨0, 1⟩ typeScore then
        jadd typeScore
          (jmul (calculateAdvancedContentSimilarity blockContent struct.content)
            ⟨6, 10⟩)
      else
        let contentScore :=
          calculateAdvancedContentSimilarity blockContent struct.content
        if jlt ⟨8, 10⟩ contentScore then jmul contentScore ⟨5, 10⟩ else ⟨0, 1⟩

/-- The inner best-match scan of reorderBlocksByImprovedMatching: walk all
block indices, skip used ones, and keep the first strictly-better score
(the source's bestMatch = -1 sentinel is modelled by none). -/
def findBestMatch (blocks : List MBlock) (used : List Nat) (struct : StructElem) :
    Option Nat × JNum :=
  (List.range blocks.length).foldl
    (fun acc blockIndex =>
      if blockIndex ∈ used then acc
      else
        let score := calculateContentMatchScore (blocks.getD blockIndex defaultMBlock)
          struct
        if jlt acc.2 score then (some blockIndex, score) else acc)
    (none, ⟨0, 1⟩)

/-- The per-element greedy loop of reorderBlocksByImprovedMatching: match
each structural element against the best unused block; accept the match
when the score reaches 0.5. -/
def reorderLoop (blocks : List MBlock) :
    List StructElem → List Nat → List MBlock × List Nat
  | [], used => ([], used)
  | struct :: rest, used =>
    match (findBestMatch blocks used struct).1 with
    | some bestMatch =>
      if jle ⟨5, 10⟩ (findBestMatch blocks used struct).2 then
        ((blocks.getD bestMatch defaultMBlock) ::
          (reorderLoop blocks rest (bestMatch :: used)).1,
         (reorderLoop blocks rest (bestMatch :: used)).2)
      else reorderLoop blocks rest used
    | none => reorderLoop blocks rest used

/-- Embedding of reorderBlocksByImprovedMatching (part_005 lines
1143-1195): the matched blocks in structural order, followed by all still
unused blocks in their original relative order. -/
def reorderBlocksByImprovedMatching (blocks : List MBlock)
    (markdownStructure : List StructElem) : List MBlock :=
  (reorderLoop blocks markdownStructure []).1 ++
    ((List.range blocks.length).filter
      (fun i => decide (i ∉ (reorderLoop blocks markdownStructure []).2))).map
      (fun i => blocks.getD i defaultMBlock)

/-- Does the trimmed line start with an ordered-list marker \d+\.\s? -/
def ordMatch (t : JStr) : Bool :=
  let ds := t.takeWhile (fun d => d.isDigit)
  !ds.isEmpty &&
    (match t.drop ds.length with
     | d :: rest2 =>
       d == ('.') && (match rest2 with | e :: _ => jsWhitespace e | [] => false)
     | [] => false)

/-- Remove the matched ordered-list marker (digits, dot, one whitespace). -/
def ordStrip (t : JStr) : JStr :=
  t.drop ((t.takeWhile (fun d => d.isDigit)).length + 2)

/-- Line classification of parseMarkdownStructure (part_005 lines
1097-1129): the recognised Markdown shapes, with everything else typed
text. -/
def classifyLine (trimmedLine : JStr) : String × JStr :=
  if startsWithChars (("# ").toList) trimmedLine then
    ("heading1", jsTrim (trimmedLine.drop 2))
  else if startsWithChars (("## ").toList) trimmedLine then
    ("heading2", jsTrim (trimmedLine.drop 3))
  else if startsWithChars (("### ").toList) trimmedLine then
    ("heading3", jsTrim (trimmedLine.drop 4))
  else if startsWithChars (("- ").toList) trimmedLine ||
      startsWithChars (("* ").toList) trimmedLine then
    ("bullet", jsTrim (trimmedLine.drop 2))
  else if ordMatch trimmedLine then
    ("ordered", jsTrim (ordStrip trimmedLine))
  else if startsWithChars (("> ").toList) trimmedLine then
    ("quote", jsTrim (trimmedLine.drop 2))
  else if trimmedLine = [('>')] then
    ("text", [('>')])
  else if startsWithChars [backquoteChar, backquoteChar, backquoteChar] trimmedLine then
    ("code", ("[代码块]").toList)
  else if containsSub trimmedLine (("![").toList) &&
      containsSub trimmedLine (("](").toList) then
    ("image", ("[图片]").toList)
  else
    ("text", trimmedLine)

/-- The line loop of parseMarkdownStructure: skip blank lines, classify the
rest, truncate the content to 50 characters and record the line number. -/
def parseMarkdownStructureLines : List JStr → Nat → List StructElem
  | [], _ => []
  | line :: rest, i =>
    let trimmedLine := jsTrim line
    if trimmedLine.isEmpty then parseMarkdownStructureLines rest (i + 1)
    else
      ⟨(classifyLine trimmedLine).1, (classifyLine trimmedLine).2.take 50, i⟩ ::
        parseMarkdownStructureLines rest (i + 1)

/-- Embedding of parseMarkdownStructure (part_005 lines 1086-1135). -/
def parseMarkdownStructure (markdown : JStr) : List StructElem :=
  parseMarkdownStructureLines (splitOnChar ('\n') markdown) 0

/-- The structural elements of the C2 scenario. -/
def structHeadingA : StructElem := ⟨"heading1", ("A").toList, 0⟩

/-- The bullet x element of the C2 scenario. -/
def structBulletX : StructElem := ⟨"bullet", ("x").toList, 1⟩

/-- The bullet y element of the C2 scenario. -/
def structBulletY : StructElem := ⟨"bullet", ("y").toList, 2⟩

/-- Remote bullet block carrying content y. -/
def blockBulletY : MBlock := ⟨.num 14, .bullet [some (("y").toList)]⟩

/-- Remote heading block carrying content A. -/
def blockHeadingA : MBlock := ⟨.num 3, .heading1 [some (("A").toList)]⟩

/-- Remote bullet block carrying content x. -/
def blockBulletX : MBlock := ⟨.num 14, .bullet [some (("x").toList)]⟩

/-- C2: reconciling the structural elements heading1 A, bullet x, bullet y
against the unordered block list bullet y, heading1 A, bullet x yields the
source order heading1 A, bullet x, bullet y, each element taking its
exact-match block with score 1.0; the element list is exactly what
parseMarkdownStructure produces from the original Markdown. -/
theorem reorderBlocksByImprovedMatching_scenario :
    parseMarkdownStructure (("# A\n- x\n- y").toList) =
        [structHeadingA, structBulletX, structBulletY] ∧
      reorderBlocksByImprovedMatching [blockBulletY, blockHeadingA, blockBulletX]
          [structHeadingA, structBulletX, structBulletY] =
        [blockHeadingA, blockBulletX, blockBulletY] ∧
      calculateContentMatchScore blockHeadingA structHeadingA = ⟨1, 1⟩ ∧
      calculateContentMatchScore blockBulletX structBulletX = ⟨1, 1⟩ ∧
      calculateContentMatchScore blockBulletY structBulletY = ⟨1, 1⟩ := by
  refine ⟨by decide, by decide, by decide, by decide, by decide⟩

/-- The fold step of findBestMatch, named for the proofs. -/
def findBestStep (blocks : List MBlock) (used : List Nat) (struct : StructElem)
    (acc : Option Nat × JNum) (blockIndex : Nat) : Option Nat × JNum :=
  if blockIndex ∈ used then acc
  else
    if jlt acc.2 (calculateContentMatchScore (blocks.getD blockIndex defaultMBlock)
        struct)
    then (some blockIndex,
          calculateContentMatchScore (blocks.getD blockIndex defaultMBlock) struct)
    else acc

theorem findBestMatch_eq_foldl (blocks : List MBlock) (used : List Nat)
    (struct : StructElem) :
    findBestMatch blocks used struct =
      (List.range blocks.length).foldl (findBestStep blocks used struct)
        (none, ⟨0, 1⟩) := rfl

theorem findBestMatch_sound (blocks : List MBlock) (used : List Nat)
    (struct : StructElem) (j : Nat)
    (h : (findBestMatch blocks used struct).1 = some j) :
    j < blocks.length ∧ j ∉ used := by
  rw [findBestMatch_eq_foldl] at h
  have haux : ∀ (l : List Nat) (acc : Option Nat × JNum),
      (∀ i ∈ l, i < blocks.length) →
      (∀ j2, acc.1 = some j2 → j2 < blocks.length ∧ j2 ∉ used) →
      ∀ j2, (l.foldl (findBestStep blocks used struct) acc).1 = some j2 →
        j2 < blocks.length ∧ j2 ∉ used := by
    intro l
    induction l with
    | nil =>
      intro acc _ hacc j2 h2
      exact hacc j2 h2
    | cons i l ih =>
      intro acc hmem hacc j2 h2
      rw [List.foldl_cons] at h2
      refine ih (findBestStep blocks used struct acc i)
        (fun x hx => hmem x (List.mem_cons_of_mem _ hx)) ?_ j2 h2
      intro j3 hj3
      rw [findBestStep] at hj3
      by_cases hui : i ∈ used
      · rw [if_pos hui] at hj3
        exact hacc j3 hj3
      · rw [if_neg hui] at hj3
        by_cases hs : jlt acc.2
            (calculateContentMatchScore (blocks.getD i defaultMBlock) struct) = true
        · rw [if_pos hs] at hj3
          simp only [Option.some.injEq] at hj3
          subst hj3
          exact ⟨hmem i (List.mem_cons_self _ _), hui⟩
        · rw [if_neg hs] at hj3
          exact hacc j3 hj3
  exact haux (List.range blocks.length) (none, ⟨0, 1⟩)
    (fun i hi => List.mem_range.mp hi) (fun j2 hj2 => absurd hj2 (by simp)) j h

theorem reorderLoop_spec (blocks : List MBlock) :
    ∀ (sts : List StructElem) (used : List Nat),
      ∃ sel : List Nat,
        (reorderLoop blocks sts used).2 = sel ++ used ∧
        (reorderLoop blocks sts used).1 =
          sel.reverse.map (fun i => blocks.getD i defaultMBlock) ∧
        sel.Nodup ∧ (∀ i ∈ sel, i < blocks.length ∧ i ∉ used)
  | [], used => ⟨[], rfl, rfl, List.nodup_nil, by simp⟩
  | struct :: rest, used => by
    cases hfb : (findBestMatch blocks used struct).1 with
    | none =>
      have heq : reorderLoop blocks (struct :: rest) used =
          reorderLoop blocks rest used := by
        simp only [reorderLoop, hfb]
      rw [heq]
      exact reorderLoop_spec blocks rest used
    | some j =>
      by_cases hs : jle ⟨5, 10⟩ (findBestMatch blocks used struct).2 = true
      · have heq : reorderLoop blocks (struct :: rest) used =
            ((blocks.getD j defaultMBlock) ::
              (reorderLoop blocks rest (j :: used)).1,
             (reorderLoop blocks rest (j :: used)).2) := by
          simp only [reorderLoop, hfb, hs, if_true]
        obtain ⟨sel, h1, h2, h3, h4⟩ := reorderLoop_spec blocks rest (j :: used)
        obtain ⟨hjlt, hjused⟩ := findBestMatch_sound blocks used struct j hfb
        refine ⟨sel ++ [j], ?_, ?_, ?_, ?_⟩
        · rw [heq]
          show (reorderLoop blocks rest (j :: used)).2 = (sel ++ [j]) ++ used
          rw [h1, List.append_assoc, List.singleton_append]
        · rw [heq]
          show blocks.getD j defaultMBlock :: (reorderLoop blocks rest (j :: used)).1
              = (sel ++ [j]).reverse.map (fun i => blocks.getD i defaultMBlock)
          rw [h2, List.reverse_append, List.reverse_singleton, List.singleton_append,
            List.map_cons]
        · rw [List.nodup_append]
          refine ⟨h3, List.nodup_singleton j, ?_⟩
          intro a ha hb
          rw [List.mem_singleton] at hb
          subst hb
          exact (h4 a ha).2 (List.mem_cons_self _ _)
        · intro i hi
          rcases List.mem_append.mp hi with h5 | h5
          · obtain ⟨hlt, hnu⟩ := h4 i h5
            exact ⟨hlt, fun hc => hnu (List.mem_cons_of_mem _ hc)⟩
          · rw [List.mem_singleton] at h5
            subst h5
            exact ⟨hjlt, hjused⟩
      · have heq : reorderLoop blocks (struct :: rest) used =
            reorderLoop blocks rest used := by
          simp only [reorderLoop, hfb]
          rw [if_neg hs]
        rw [heq]
        exact reorderLoop_spec blocks rest used

theorem map_getD_range (l : List MBlock) :
    (List.range l.length).map (fun i => l.getD i defaultMBlock) = l := by
  induction l with
  | nil => rfl
  | cons a t ih =>
    rw [List.length_cons, List.range_succ_eq_map, List.map_cons, List.map_map]
    have hcomp : ((fun i => (a :: t).getD i defaultMBlock) ∘ Nat.succ) =
        (fun i => t.getD i defaultMBlock) := by
      funext i
      simp [List.getD_cons_succ]
    rw [hcomp, ih]
    rfl

theorem nodup_mem_perm (l1 l2 : List Nat) (h1 : l1.Nodup) (h2 : l2.Nodup)
    (hm : ∀ a, a ∈ l1 ↔ a ∈ l2) : l1.Perm l2 := by
  rw [List.perm_iff_count]
  intro a
  by_cases ha : a ∈ l1
  · rw [List.count_eq_one_of_mem h1 ha, List.count_eq_one_of_mem h2 ((hm a).mp ha)]
  · rw [List.count_eq_zero_of_not_mem ha,
      List.count_eq_zero_of_not_mem (fun hc => ha ((hm a).mpr hc))]

/-- C1: the Block Reconciler returns a permutation of its input — same
length, each input block kept exactly once (as a multiset) — and the output
ends with exactly the blocks left unmatched by the greedy pass, in their
original relative order. -/
theorem reorderBlocksByImprovedMatching_permutation (blocks : List MBlock)
    (markdownStructure : List StructElem) :
    (reorderBlocksByImprovedMatching blocks markdownStructure).Perm blocks ∧
    (reorderBlocksByImprovedMatching blocks markdownStructure).length =
      blocks.length ∧
    ∃ matched, reorderBlocksByImprovedMatching blocks markdownStructure =
      matched ++ ((List.range blocks.length).filter
        (fun i => decide (i ∉ (reorderLoop blocks markdownStructure []).2))).map
        (fun i => blocks.getD i defaultMBlock) := by
  have hperm : (reorderBlocksByImprovedMatching blocks markdownStructure).Perm blocks := by
    obtain ⟨sel, h1, h2, h3, h4⟩ := reorderLoop_spec blocks markdownStructure []
    rw [List.append_nil] at h1
    rw [reorderBlocksByImprovedMatching, h2]
    simp only [h1]
    rw [← List.map_append]
    conv_rhs => rw [← map_getD_range blocks]
    apply List.Perm.map
    have hselperm : sel.Perm ((List.range blocks.length).filter
        (fun i => decide (i ∈ sel))) := by
      apply nodup_mem_perm sel _ h3
      · exact List.Nodup.filter _ (List.nodup_range _)
      · intro a
        constructor
        · intro ha
          rw [List.mem_filter]
          exact ⟨List.mem_range.mpr (h4 a ha).1, by simpa using ha⟩
        · intro ha
          rw [List.mem_filter] at ha
          simpa using ha.2
    have hstep1 : List.Perm
        (sel.reverse ++ (List.range blocks.length).filter
          (fun i => decide (i ∉ sel)))
        (sel ++ (List.range blocks.length).filter (fun i => decide (i ∉ sel))) :=
      List.Perm.append_right _ (List.reverse_perm sel)
    have hstep2 : List.Perm
        (sel ++ (List.range blocks.length).filter (fun i => decide (i ∉ sel)))
        (((List.range blocks.length).filter (fun i => decide (i ∈ sel))) ++
          (List.range blocks.length).filter (fun i => decide (i ∉ sel))) :=
      List.Perm.append_right _ hselperm
    have hstep3 : List.Perm
        (((List.range blocks.length).filter (fun i => decide (i ∈ sel))) ++
          (List.range blocks.length).filter (fun i => decide (i ∉ sel)))
        (List.range blocks.length) := by
      have hfun : (fun i => decide (i ∉ sel)) =
          (fun x => !(decide (x ∈ sel))) := by
        funext x
        simp [decide_not]
      rw [hfun]
      exact List.filter_append_perm _ _
    exact hstep1.trans (hstep2.trans hstep3)
  refine ⟨hperm, hperm.length_eq, ⟨(reorderLoop blocks markdownStructure []).1, rfl⟩⟩
